import Mathlib

/-!
Verification of the account_manager core (src/logic.py, src/window.py)
against its specification.

Conventions of the embedding:
* Python strings are Lean `String`s; the character-level operations the
  source uses (`str.strip`, single-character `str.replace`, `str.casefold`)
  are modelled on `List Char` so that every definition reduces in the kernel.
  `str.strip` strips ASCII whitespace (the repository's data is ASCII where
  it matters); `str.casefold` is modelled as ASCII lower-casing.
* Python floats are modelled as exact rationals `ℚ`: the claims under test
  are about which arithmetic is performed, not about IEEE-754 rounding.
* A Python function that can raise is an `Except`/`Option` value; the
  distinct exception classes the source can raise are distinct error
  constructors.
* The CSV layer is abstracted: an expense file is its list of rows, a row a
  `List String` of fields.  JSON side files are an `Option Json` (`none` =
  missing or unreadable file).
* `uuid.uuid4().hex` is modelled by an id supply `fresh : ℕ → String`
  consumed left to right; uniqueness of uuids becomes explicit hypotheses.
-/

namespace AccountManager

/-! ## Character and string utilities -/

/-- ASCII whitespace, the characters `str.strip` removes on ASCII data. -/
def isWs (c : Char) : Bool :=
  c = ' ' || c = '\t' || c = '\n' || c = '\r' || c = '\x0b' || c = '\x0c'

/-- Model of Python `str.strip()` on the character list. -/
def trimChars (cs : List Char) : List Char :=
  ((cs.dropWhile isWs).reverse.dropWhile isWs).reverse

/-- Model of Python `str.strip()` on strings (used for the text fields). -/
def pyStrip (s : String) : String := ⟨trimChars s.data⟩

/-- Model of `str.replace(",", ".")`: a single-character replacement is a map. -/
def commaFn (c : Char) : Char := if c = ',' then '.' else c

/-- Model of `str.casefold()` restricted to ASCII (enough for uniqueness keys). -/
def lowerKey (s : String) : String := ⟨s.data.map Char.toLower⟩

/-! ## PriceExpression (src/logic.py `parse_price_to_float`,
`_eval_arithmetic_expression`)

The source evaluates a price string by first trying Python `float()`, then
parsing with `ast.parse` and walking the tree, accepting only numeric
literals, unary `+`/`-`, binary `+ - * /` and parentheses.  The embedding
implements Python's parser restricted to exactly that sublanguage
(decimal integer and float literals without underscores; hex/octal/binary,
complex, `inf`/`nan` names and newline continuations are outside the model,
as are non-ASCII digits).  `ast.parse` failing and the tree walk rejecting a
node both surface as the same `ValueError("Prix invalide")`, so both are the
single error `invalidPrice`; a zero divisor raises Python's separate
`ZeroDivisionError`, modelled as the distinct error `zeroDivision`. -/

/-- The two failures `parse_price_to_float` can raise: the
`ValueError("Prix invalide")` of the source, and the `ZeroDivisionError`
that `left / right` raises on a zero divisor (which the source does not
catch). -/
inductive PriceError where
  | invalidPrice : PriceError
  | zeroDivision : PriceError
deriving DecidableEq

/-- The scanned pieces of one decimal numeric literal. -/
structure NumScan where
  intPart : List Char
  hasDot : Bool
  fracPart : List Char
  expVal : Option ℤ
  rest : List Char
deriving DecidableEq

def digitsToNat (ds : List Char) : ℕ :=
  ds.foldl (fun a c => 10 * a + (c.toNat - 48)) 0

/-- Build the scan result for an exponent candidate: with no digits after
the (optional) sign the `e` is not consumed, as in Python's tokenizer. -/
def mkExp (d1 : List Char) (dot : Bool) (d2 : List Char) (neg : Bool)
    (ds : List Char) (r : List Char) (orig : List Char) : NumScan :=
  if ds = [] then ⟨d1, dot, d2, none, orig⟩
  else ⟨d1, dot, d2,
    some (if neg then -(digitsToNat ds : ℤ) else (digitsToNat ds : ℤ)), r⟩

/-- Scan an optional exponent part (`e`/`E`, optional sign, digits). -/
def scanExp (d1 : List Char) (dot : Bool) (d2 : List Char) (cs : List Char) :
    NumScan :=
  match cs with
  | c :: r =>
    if c = 'e' || c = 'E' then
      match r with
      | c2 :: r2 =>
        if c2 = '+' then
          mkExp d1 dot d2 false (r2.takeWhile Char.isDigit)
            (r2.dropWhile Char.isDigit) cs
        else if c2 = '-' then
          mkExp d1 dot d2 true (r2.takeWhile Char.isDigit)
            (r2.dropWhile Char.isDigit) cs
        else
          mkExp d1 dot d2 false (r.takeWhile Char.isDigit)
            (r.dropWhile Char.isDigit) cs
      | [] => ⟨d1, dot, d2, none, cs⟩
    else ⟨d1, dot, d2, none, cs⟩
  | [] => ⟨d1, dot, d2, none, cs⟩

/-- Scan the optional `.`-and-fraction part; `d1` are the integer digits
already taken. -/
def scanFrac (d1 : List Char) (cs : List Char) : Option NumScan :=
  match cs with
  | c :: r =>
    if c = '.' then
      let ds := r.takeWhile Char.isDigit
      if d1 = [] && ds = [] then none
      else some (scanExp d1 true ds (r.dropWhile Char.isDigit))
    else if d1 = [] then none
    else some (scanExp d1 false [] (c :: r))
  | [] => if d1 = [] then none else some (scanExp d1 false [] [])

/-- Scan one decimal numeric literal (Python `number` token / `float()`
body): digits, optional `.` and fraction digits, optional exponent; at
least one digit before or after the dot. -/
def scanNumber (cs : List Char) : Option NumScan :=
  scanFrac (cs.takeWhile Char.isDigit) (cs.dropWhile Char.isDigit)

/-- The exact rational value of a scanned literal. -/
def numValue (ns : NumScan) : ℚ :=
  let base : ℚ := (digitsToNat ns.intPart : ℚ) +
    (digitsToNat ns.fracPart : ℚ) / ((10 : ℚ) ^ ns.fracPart.length)
  match ns.expVal with
  | none => base
  | some e => if 0 ≤ e then base * (10 : ℚ) ^ e.toNat else base / (10 : ℚ) ^ (-e).toNat

/-- Python's *integer literal* rule: no leading zero unless the literal is
all zeros (float literals have no such restriction). -/
def intLitOk (d : List Char) : Bool :=
  match d with
  | [] => false
  | c :: cs => if c = '0' then cs.all (· = '0') else true

/-- Lex one numeric literal as `ast.parse` accepts it. -/
def lexNumber (cs : List Char) : Option (ℚ × List Char) :=
  (scanNumber cs).bind fun ns =>
    if !ns.hasDot && ns.expVal = none && !intLitOk ns.intPart then none
    else some (numValue ns, ns.rest)

/-- Model of Python `float(s)` on the literal sublanguage: optional sign then
one fully-consumed decimal literal (no leading-zero restriction). -/
def pyFloatLit (cs : List Char) : Option ℚ :=
  (scanNumber cs).bind fun ns =>
    if ns.rest = [] then some (numValue ns) else none

/-- Model of Python `float(s)` (after whitespace was already stripped). -/
def pyFloat (cs : List Char) : Option ℚ :=
  match cs with
  | [] => none
  | c :: r =>
    if c = '+' then pyFloatLit r
    else if c = '-' then (pyFloatLit r).map (fun q => -q)
    else pyFloatLit (c :: r)

/-- The tokens of the arithmetic sublanguage. -/
inductive Tok where
  | num : ℚ → Tok
  | plus : Tok
  | minus : Tok
  | star : Tok
  | slash : Tok
  | lparen : Tok
  | rparen : Tok
deriving DecidableEq

/-- Fueled tokenizer; spaces, tabs and form feeds separate tokens as in
Python's tokenizer.  `none` = Python's `SyntaxError`. -/
def lexGo : ℕ → List Char → Option (List Tok)
  | 0, _ => none
  | _ + 1, [] => some []
  | f + 1, c :: cs =>
    if c = ' ' || c = '\t' || c = '\x0c' then lexGo f cs
    else if c = '+' then (lexGo f cs).map (Tok.plus :: ·)
    else if c = '-' then (lexGo f cs).map (Tok.minus :: ·)
    else if c = '*' then (lexGo f cs).map (Tok.star :: ·)
    else if c = '/' then (lexGo f cs).map (Tok.slash :: ·)
    else if c = '(' then (lexGo f cs).map (Tok.lparen :: ·)
    else if c = ')' then (lexGo f cs).map (Tok.rparen :: ·)
    else (lexNumber (c :: cs)).bind fun p => (lexGo f p.2).map (Tok.num p.1 :: ·)

def lexTokens (cs : List Char) : Option (List Tok) := lexGo (cs.length + 1) cs

/-- The five permitted node kinds of `_eval_arithmetic_expression`:
numeric literal, unary `+`/`-`, binary `+ - * /` (parenthesised
sub-expressions leave no node). -/
inductive AExp where
  | num : ℚ → AExp
  | pos : AExp → AExp
  | neg : AExp → AExp
  | add : AExp → AExp → AExp
  | sub : AExp → AExp → AExp
  | mul : AExp → AExp → AExp
  | div : AExp → AExp → AExp
deriving DecidableEq

/-- Parser mode: `expr` handles `+`/`-` chains, `term` handles `*`/`/`
chains, `factor` handles unary sign, literals and parentheses — Python's
precedence for this sublanguage. -/
inductive PMode where
  | expr : PMode
  | chainE : AExp → PMode
  | term : PMode
  | chainT : AExp → PMode
  | factor : PMode

/-- Fueled recursive-descent parser (left-associative chains). -/
def parseStep : ℕ → PMode → List Tok → Option (AExp × List Tok)
  | 0, _, _ => none
  | f + 1, .expr, ts =>
    match parseStep f .term ts with
    | some (e, r) => parseStep f (.chainE e) r
    | none => none
  | f + 1, .chainE e, .plus :: ts =>
    match parseStep f .term ts with
    | some (e2, r) => parseStep f (.chainE (.add e e2)) r
    | none => none
  | f + 1, .chainE e, .minus :: ts =>
    match parseStep f .term ts with
    | some (e2, r) => parseStep f (.chainE (.sub e e2)) r
    | none => none
  | _ + 1, .chainE e, ts => some (e, ts)
  | f + 1, .term, ts =>
    match parseStep f .factor ts with
    | some (e, r) => parseStep f (.chainT e) r
    | none => none
  | f + 1, .chainT e, .star :: ts =>
    match parseStep f .factor ts with
    | some (e2, r) => parseStep f (.chainT (.mul e e2)) r
    | none => none
  | f + 1, .chainT e, .slash :: ts =>
    match parseStep f .factor ts with
    | some (e2, r) => parseStep f (.chainT (.div e e2)) r
    | none => none
  | _ + 1, .chainT e, ts => some (e, ts)
  | f + 1, .factor, .plus :: ts => (parseStep f .factor ts).map (fun p => (.pos p.1, p.2))
  | f + 1, .factor, .minus :: ts => (parseStep f .factor ts).map (fun p => (.neg p.1, p.2))
  | _ + 1, .factor, .num q :: ts => some (.num q, ts)
  | f + 1, .factor, .lparen :: ts =>
    match parseStep f .expr ts with
    | some (e, .rparen :: r) => some (e, r)
    | _ => none
  | _ + 1, .factor, _ => none

/-- Model of `ast.parse(expr, mode="eval")` restricted to the sublanguage
the source's tree walk accepts: `none` covers both a `SyntaxError` and a
tree with a node outside the five permitted kinds (the source maps both to
`ValueError("Prix invalide")`). -/
def parseArith (cs : List Char) : Option AExp :=
  (lexTokens cs).bind fun ts =>
    match parseStep (8 * (ts.length + 1)) .expr ts with
    | some (e, []) => some e
    | _ => none

/-- The tree walk `_eval` of `_eval_arithmetic_expression`: literals,
unary `+`/`-`, binary `+ - * /`; a zero divisor raises
`ZeroDivisionError` (true division of floats). -/
def evalA : AExp → Except PriceError ℚ
  | .num q => .ok q
  | .pos a => evalA a
  | .neg a => (evalA a).map (fun v => -v)
  | .add a b =>
    match evalA a with
    | .error e => .error e
    | .ok x => match evalA b with
      | .error e => .error e
      | .ok y => .ok (x + y)
  | .sub a b =>
    match evalA a with
    | .error e => .error e
    | .ok x => match evalA b with
      | .error e => .error e
      | .ok y => .ok (x - y)
  | .mul a b =>
    match evalA a with
    | .error e => .error e
    | .ok x => match evalA b with
      | .error e => .error e
      | .ok y => .ok (x * y)
  | .div a b =>
    match evalA a with
    | .error e => .error e
    | .ok x => match evalA b with
      | .error e => .error e
      | .ok y => if y = 0 then .error .zeroDivision else .ok (x / y)

/-- src/logic.py `_eval_arithmetic_expression`: strip, reject empty, parse,
walk. -/
def evalArithmeticExpression (cs : List Char) : Except PriceError ℚ :=
  if trimChars cs = [] then .error .invalidPrice
  else
    match parseArith (trimChars cs) with
    | none => .error .invalidPrice
    | some a => evalA a

/-- The cleaned text `parse_price_to_float` evaluates: strip, commas to
dots, spaces removed. -/
def cleanPrice (s : String) : List Char :=
  ((trimChars s.data).map commaFn).filter (fun c => c ≠ ' ')

/-- src/logic.py `parse_price_to_float`: strip and turn commas into dots;
empty input is `0.0`; strip spaces; try `float()`; otherwise evaluate as an
arithmetic expression. -/
def parse_price_to_float (price : String) : Except PriceError ℚ :=
  if (trimChars price.data).map commaFn = [] then .ok 0
  else
    match pyFloat (cleanPrice price) with
    | some q => .ok q
    | none => evalArithmeticExpression (cleanPrice price)

/-! ### The cleaned price text is already stripped -/

/-- The list's first character, when there is one, is not whitespace. -/
def headNotWs (l : List Char) : Prop := ∀ c, l.head? = some c → isWs c = false

theorem headNotWs_dropWhile (l : List Char) : headNotWs (l.dropWhile isWs) := by
  induction l with
  | nil => intro c h; simp at h
  | cons a t ih =>
    intro c h
    cases hw : isWs a with
    | true => rw [List.dropWhile_cons_of_pos hw] at h; exact ih c h
    | false =>
      rw [List.dropWhile_cons_of_neg (by simp [hw])] at h
      simp only [List.head?_cons, Option.some.injEq] at h
      exact h ▸ hw

theorem dropWhile_ws_eq_self {l : List Char} (h : headNotWs l) :
    l.dropWhile isWs = l := by
  cases l with
  | nil => rfl
  | cons a t => exact List.dropWhile_cons_of_neg (by simp [h a rfl])

theorem trimChars_eq_self {l : List Char} (h1 : headNotWs l)
    (h2 : headNotWs l.reverse) : trimChars l = l := by
  unfold trimChars
  rw [dropWhile_ws_eq_self h1, dropWhile_ws_eq_self h2, List.reverse_reverse]

theorem headNotWs_trimChars_rev (cs : List Char) :
    headNotWs (trimChars cs).reverse := by
  unfold trimChars
  rw [List.reverse_reverse]
  exact headNotWs_dropWhile _

theorem headNotWs_trimChars (cs : List Char) : headNotWs (trimChars cs) := by
  intro c h
  unfold trimChars at h
  set A := cs.dropWhile isWs with hA
  have hsuff : A.reverse.dropWhile isWs <:+ A.reverse := List.dropWhile_suffix _
  have hpre : (A.reverse.dropWhile isWs).reverse <+: A := by
    have := List.reverse_prefix.mpr hsuff
    rwa [List.reverse_reverse] at this
  obtain ⟨t, ht⟩ := hpre
  have hne : (A.reverse.dropWhile isWs).reverse ≠ [] := by
    intro hnil; rw [hnil] at h; simp at h
  have hhead : A.head? = some c := by
    rw [← ht, List.head?_append_of_ne_nil _ hne, h]
  have : headNotWs A := headNotWs_dropWhile cs
  exact this c hhead

theorem headNotWs_map_comma {l : List Char} (h : headNotWs l) :
    headNotWs (l.map commaFn) := by
  intro c hc
  rw [List.head?_map] at hc
  cases hl : l.head? with
  | none => rw [hl] at hc; simp at hc
  | some c0 =>
    rw [hl] at hc
    simp only [Option.map_some', Option.some.injEq] at hc
    subst hc
    have h0 := h c0 hl
    unfold commaFn
    by_cases hcomma : c0 = ','
    · simp [hcomma, isWs]
    · simp [hcomma, h0]

theorem headNotWs_filter_space {l : List Char} (h : headNotWs l) :
    headNotWs (l.filter (fun c => c ≠ ' ')) := by
  cases l with
  | nil => intro c hc; simp at hc
  | cons a t =>
    have ha := h a rfl
    have hne : a ≠ ' ' := by
      intro he; rw [he] at ha; simp [isWs] at ha
    intro c hc
    rw [List.filter_cons_of_pos (by simp [hne])] at hc
    simp only [List.head?_cons, Option.some.injEq] at hc
    exact hc ▸ ha

/-- The text `parse_price_to_float` hands to the expression evaluator is
unchanged by the evaluator's own strip. -/
theorem trimChars_cleanPrice (s : String) :
    trimChars (cleanPrice s) = cleanPrice s := by
  unfold cleanPrice
  set t := trimChars s.data with ht
  apply trimChars_eq_self
  · exact headNotWs_filter_space (headNotWs_map_comma (headNotWs_trimChars _))
  · rw [← List.filter_reverse, ← List.map_reverse]
    exact headNotWs_filter_space (headNotWs_map_comma (headNotWs_trimChars_rev _))

/-! ### The float() fast path agrees with the expression evaluator -/

theorem scanNumber_head {cs : List Char} {ns : NumScan}
    (h : scanNumber cs = some ns) :
    ∃ c cs', cs = c :: cs' ∧ (c.isDigit = true ∨ c = '.') := by
  unfold scanNumber at h
  cases cs with
  | nil => simp [scanFrac] at h
  | cons c cs' =>
    by_cases hd : Char.isDigit c
    · exact ⟨c, cs', rfl, Or.inl hd⟩
    · rw [List.takeWhile_cons_of_neg (by simpa using hd),
        List.dropWhile_cons_of_neg (by simpa using hd)] at h
      by_cases hdot : c = '.'
      · exact ⟨c, cs', rfl, Or.inr hdot⟩
      · exfalso
        simp only [scanFrac, if_neg hdot] at h
        exact Option.noConfusion (if_pos trivial ▸ h)

theorem isDigit_ne {c z : Char} (h : c.isDigit = true) (hz : z.isDigit = false) :
    c ≠ z := fun he => by rw [he, hz] at h; exact Bool.noConfusion h

theorem pyFloatLit_lexNumber {cs : List Char} {q : ℚ}
    (h : pyFloatLit cs = some q) :
    lexNumber cs = none ∨ lexNumber cs = some (q, []) := by
  unfold pyFloatLit at h
  cases hscan : scanNumber cs with
  | none => rw [hscan] at h; exact Option.noConfusion h
  | some ns =>
    rw [hscan, Option.some_bind] at h
    by_cases hrest : ns.rest = []
    · rw [if_pos hrest] at h
      injection h with h
      unfold lexNumber
      rw [hscan, Option.some_bind]
      split
      · exact Or.inl rfl
      · exact Or.inr (by rw [hrest, h])
    · rw [if_neg hrest] at h
      exact Option.noConfusion h

theorem lexTokens_single {cs : List Char} {q : ℚ} {ts : List Tok}
    (hpf : pyFloatLit cs = some q) (hlex : lexTokens cs = some ts) :
    ts = [Tok.num q] := by
  have hscan : ∃ ns, scanNumber cs = some ns := by
    unfold pyFloatLit at hpf
    cases hs : scanNumber cs with
    | none => rw [hs] at hpf; exact Option.noConfusion hpf
    | some ns => exact ⟨ns, rfl⟩
  obtain ⟨ns, hns⟩ := hscan
  obtain ⟨c, cs', rfl, hdd⟩ := scanNumber_head hns
  have hsp : (c = ' ' || c = '\t' || c = '\x0c') = false := by
    rcases hdd with h | h
    · simp [@isDigit_ne c ' ' h (by decide), @isDigit_ne c '\t' h (by decide),
        @isDigit_ne c '\x0c' h (by decide)]
    · subst h; decide
  have hops : c ≠ '+' ∧ c ≠ '-' ∧ c ≠ '*' ∧ c ≠ '/' ∧ c ≠ '(' ∧ c ≠ ')' := by
    rcases hdd with h | h
    · exact ⟨@isDigit_ne c '+' h (by decide), @isDigit_ne c '-' h (by decide),
        @isDigit_ne c '*' h (by decide), @isDigit_ne c '/' h (by decide),
        @isDigit_ne c '(' h (by decide), @isDigit_ne c ')' h (by decide)⟩
    · subst h; exact ⟨by decide, by decide, by decide, by decide, by decide, by decide⟩
  obtain ⟨h1, h2, h3, h4, h5, h6⟩ := hops
  unfold lexTokens at hlex
  simp only [List.length_cons] at hlex
  rw [show cs'.length + 1 + 1 = (cs'.length + 1) + 1 from rfl] at hlex
  simp only [lexGo, hsp, h1, h2, h3, h4, h5, h6, if_false, Bool.false_eq_true]
    at hlex
  rcases pyFloatLit_lexNumber hpf with hnum | hnum
  · rw [hnum] at hlex
    exact Option.noConfusion hlex
  · rw [hnum, Option.some_bind] at hlex
    have hnil : lexGo (cs'.length + 1) [] = some [] := by
      cases cs'.length with
      | zero => rfl
      | succ n => rfl
    rw [hnil] at hlex
    simp only [Option.map_some', Option.some.injEq] at hlex
    exact hlex.symm

/-- The `float()` fast path never disagrees with the expression evaluator:
when both the model of `float` and the model of `ast.parse` accept the
cleaned text, the parsed tree evaluates to the `float` value. -/
theorem pyFloat_parseArith {cs : List Char} {q : ℚ} {a : AExp}
    (hpf : pyFloat cs = some q) (hpa : parseArith cs = some a) :
    evalA a = .ok q := by
  unfold parseArith at hpa
  cases hlex : lexTokens cs with
  | none => rw [hlex] at hpa; exact Option.noConfusion hpa
  | some ts =>
    rw [hlex, Option.some_bind] at hpa
    cases cs with
    | nil => simp [pyFloat] at hpf
    | cons c r =>
      simp only [pyFloat] at hpf
      by_cases hplus : c = '+'
      · rw [if_pos hplus] at hpf
        subst hplus
        have hsplit : ∃ ts', lexTokens r = some ts' ∧ ts = Tok.plus :: ts' := by
          unfold lexTokens at hlex
          simp only [List.length_cons] at hlex
          rw [show r.length + 1 + 1 = (r.length + 1) + 1 from rfl] at hlex
          simp [lexGo, Option.map_eq_some'] at hlex
          obtain ⟨a, ha, rfl⟩ := hlex
          exact ⟨a, ha, rfl⟩
        obtain ⟨ts', hts', rfl⟩ := hsplit
        have := lexTokens_single hpf hts'
        subst this
        have hpa2 : some (AExp.pos (AExp.num q)) = some a := hpa
        injection hpa2 with hpa2
        rw [← hpa2]
        rfl
      · rw [if_neg hplus] at hpf
        by_cases hminus : c = '-'
        · rw [if_pos hminus] at hpf
          subst hminus
          cases hlit : pyFloatLit r with
          | none => rw [hlit] at hpf; exact Option.noConfusion hpf
          | some q0 =>
            rw [hlit] at hpf
            simp only [Option.map_some', Option.some.injEq] at hpf
            have hsplit : ∃ ts', lexTokens r = some ts' ∧ ts = Tok.minus :: ts' := by
              unfold lexTokens at hlex
              simp only [List.length_cons] at hlex
              rw [show r.length + 1 + 1 = (r.length + 1) + 1 from rfl] at hlex
              simp [lexGo, Option.map_eq_some'] at hlex
              obtain ⟨a, ha, rfl⟩ := hlex
              exact ⟨a, ha, rfl⟩
            obtain ⟨ts', hts', rfl⟩ := hsplit
            have := lexTokens_single hlit hts'
            subst this
            have hpa2 : some (AExp.neg (AExp.num q0)) = some a := hpa
            injection hpa2 with hpa2
            rw [← hpa2, ← hpf]
            rfl
        · rw [if_neg hminus] at hpf
          have := lexTokens_single hpf hlex
          subst this
          have hpa2 : some (AExp.num q) = some a := hpa
          injection hpa2 with hpa2
          rw [← hpa2]
          rfl

/-! ### Claims C1 and C2 -/

/-- Characters inside the model's boundary for price strings: ASCII and no
letters — the evaluator's `isinstance(n.value, (int, float))` check also
accepts hex/octal/binary integer literals (`0x10`, `0o17`, `0b101`), the
bool constants `True`/`False` (`bool` subclasses `int`), and `float()`
additionally accepts `inf`/`infinity`/`nan`; all of those need a letter,
and the model's lexer reads decimal literals only.  Also excluded:
underscore digit-separators, `#` (which starts a Python comment), newlines
(permitted inside parentheses in eval mode) and the NUL byte (which
`ast.parse` rejects with a bare `ValueError` rather than a
`SyntaxError`). -/
def modeledPriceChar (c : Char) : Bool :=
  c.toNat < 128 && !c.isAlpha && !(c = '_') && !(c = '#')
    && !(c = '\n') && !(c = '\r') && !(c.toNat = 0)

/-- Claim C1: for every input string whose cleaned text is a well-formed
arithmetic expression over numeric literals, unary `+`/`-`, binary
`+ - * /` and parentheses, `parse_price_to_float` returns the value of
standard precedence-respecting evaluation of that expression; moreover
(commas read as decimal points, interior spaces stripped)
`parse("") = 0.0` and `parse("12,5") = 12.5`. -/
theorem C1_parse_standard_arithmetic :
    (∀ (s : String) (e : AExp) (q : ℚ),
        parseArith (cleanPrice s) = some e → evalA e = .ok q →
        parse_price_to_float s = .ok q)
    ∧ parse_price_to_float "" = .ok 0
    ∧ parse_price_to_float "12,5" = .ok (25 / 2) := by
  refine ⟨?_, by with_unfolding_all rfl, by with_unfolding_all rfl⟩
  intro s e q hp he
  unfold parse_price_to_float
  by_cases h1 : (trimChars s.data).map commaFn = []
  · exfalso
    have hnil : cleanPrice s = [] := by unfold cleanPrice; rw [h1]; rfl
    rw [hnil] at hp
    exact Option.noConfusion hp
  · rw [if_neg h1]
    cases hpf : pyFloat (cleanPrice s) with
    | some q0 =>
      have hq0 := pyFloat_parseArith hpf hp
      rw [he] at hq0
      injection hq0 with hq0
      show Except.ok q0 = Except.ok q
      rw [hq0]
    | none =>
      show evalArithmeticExpression (cleanPrice s) = .ok q
      unfold evalArithmeticExpression
      rw [trimChars_cleanPrice]
      have hnonnil : ¬ cleanPrice s = [] := by
        intro hnil
        rw [hnil] at hp
        exact Option.noConfusion hp
      rw [if_neg hnonnil, hp]
      exact he

/-- Instantiation of C1 at the spec's own examples. -/
theorem C1_parse_standard_arithmetic_witness :
    parse_price_to_float "4+5*6" = .ok 34
    ∧ parse_price_to_float "(4+5)*6" = .ok 54
    ∧ parse_price_to_float "10/4" = .ok (5 / 2) :=
  ⟨C1_parse_standard_arithmetic.1 "4+5*6"
      (.add (.num 4) (.mul (.num 5) (.num 6))) 34
      (by with_unfolding_all rfl) (by with_unfolding_all rfl),
    C1_parse_standard_arithmetic.1 "(4+5)*6"
      (.mul (.add (.num 4) (.num 5)) (.num 6)) 54
      (by with_unfolding_all rfl) (by with_unfolding_all rfl),
    C1_parse_standard_arithmetic.1 "10/4"
      (.div (.num 10) (.num 4)) (5 / 2)
      (by with_unfolding_all rfl) (by with_unfolding_all rfl)⟩

/-- Claim C2 as the code has it (amended): the evaluator accepts any
`ast.Constant` whose value is an `int` or `float` — so besides decimal
literals also hex/octal/binary literals and the bools `True`/`False` —
and a division by zero inside a well-formed expression (such as `"1/0"`)
raises the distinct, uncaught `ZeroDivisionError`, not `InvalidPrice`.
Within the letter-free model boundary (where the model parser coincides
with `ast.parse` + `_eval` acceptance), a non-empty input that neither
parses directly as a float nor as a permitted arithmetic expression fails
with `InvalidPrice` — in particular `parse("abc")` does. -/
theorem C2_invalid_price_rejection :
    (∀ s : String,
        (trimChars s.data).map commaFn ≠ [] →
        (∀ c ∈ cleanPrice s, modeledPriceChar c = true) →
        pyFloat (cleanPrice s) = none →
        parseArith (cleanPrice s) = none →
        parse_price_to_float s = .error .invalidPrice)
    ∧ parse_price_to_float "abc" = .error .invalidPrice
    ∧ parse_price_to_float "1/0" = .error .zeroDivision := by
  refine ⟨?_, by with_unfolding_all rfl, by with_unfolding_all rfl⟩
  intro s h1 _hmodel hpf hpa
  unfold parse_price_to_float
  rw [if_neg h1, hpf]
  show evalArithmeticExpression (cleanPrice s) = .error .invalidPrice
  unfold evalArithmeticExpression
  rw [trimChars_cleanPrice]
  by_cases hnil : cleanPrice s = []
  · rw [if_pos hnil]
  · rw [if_neg hnil, hpa]

/-- Instantiation of C2's quantified part at a concrete, letter-free
rejected input (a dangling binary operator). -/
theorem C2_invalid_price_rejection_witness :
    parse_price_to_float "1+" = .error .invalidPrice :=
  C2_invalid_price_rejection.1 "1+" (by with_unfolding_all decide)
    (by with_unfolding_all decide) (by with_unfolding_all rfl)
    (by with_unfolding_all rfl)

/-- Counterexample to claim C2 as stated: `parse("1/0")` does not fail with
`InvalidPrice`; it raises the uncaught `ZeroDivisionError`. -/
theorem C2_zero_division_counterexample :
    parse_price_to_float "1/0" = .error .zeroDivision
    ∧ parse_price_to_float "1/0" ≠ .error .invalidPrice := by
  constructor
  · with_unfolding_all rfl
  · intro h
    rw [show parse_price_to_float "1/0" = .error .zeroDivision by
      with_unfolding_all rfl] at h
    injection h with h
    exact PriceError.noConfusion h

/-! ## ExpenseStore (src/logic.py `migrate_expense_ids`, `add_expense`)

A file is its list of CSV rows.  `fresh : ℕ → String` models the
`uuid.uuid4().hex` supply, consumed left to right; `used` counts how many
ids a migration minted. -/

/-- One pass of the migration loop: `(new_rows, next fresh index, needs_write)`.
`seen` holds the ids already kept or minted in this pass. -/
def migrateGo (fresh : ℕ → String) :
    List (List String) → List String → ℕ → List (List String) × ℕ × Bool
  | [], _, k => ([], k, false)
  | row :: rest, seen, k =>
    if row = [] then migrateGo fresh rest seen k
    else if 6 ≤ row.length then
      if pyStrip (row.headD "") = "" || pyStrip (row.headD "") ∈ seen then
        let r := migrateGo fresh rest (fresh k :: seen) (k + 1)
        ((fresh k :: (row.drop 1).take 5) :: r.1, r.2.1, true)
      else
        let r := migrateGo fresh rest (pyStrip (row.headD "") :: seen) k
        ((pyStrip (row.headD "") :: (row.drop 1).take 5) :: r.1, r.2.1,
          r.2.2 || !(row.length = 6))
    else if row.length = 5 then
      let r := migrateGo fresh rest (fresh k :: seen) (k + 1)
      ((fresh k :: row) :: r.1, r.2.1, true)
    else
      let r := migrateGo fresh rest (fresh k :: seen) (k + 1)
      ((fresh k :: (row ++ List.replicate (5 - row.length) "")) :: r.1, r.2.1, true)

structure MigrateResult where
  rows : List (List String)
  used : ℕ
  needsWrite : Bool
deriving DecidableEq

/-- src/logic.py `migrate_expense_ids`: skip blank rows; rows of ≥ 6 columns
keep their stripped id when it is non-blank and not yet seen (else a fresh
id is minted) and are cut to 6 columns; 5-column legacy rows get a fresh id
prepended; shorter rows are padded to 6 columns; the file is rewritten only
when something changed. -/
def migrate_expense_ids (rows : List (List String)) (fresh : ℕ → String) :
    MigrateResult :=
  ⟨(migrateGo fresh rows [] 0).1, (migrateGo fresh rows [] 0).2.1,
    (migrateGo fresh rows [] 0).2.2⟩

/-- The file content after `migrate_expense_ids` ran on it. -/
def migrateFile (rows : List (List String)) (fresh : ℕ → String) :
    List (List String) :=
  if (migrate_expense_ids rows fresh).needsWrite then
    (migrate_expense_ids rows fresh).rows
  else rows

/-- The failures `add_expense` can raise (the three `MissingField`
`ValueError`s, the two price failures, `DuplicateExpenseError`). -/
inductive ExpenseError where
  | missingName : ExpenseError
  | missingDate : ExpenseError
  | missingCategory : ExpenseError
  | invalidPrice : ExpenseError
  | zeroDivision : ExpenseError
  | duplicateExpense : ExpenseError
deriving DecidableEq

def priceToExpenseError : PriceError → ExpenseError
  | .invalidPrice => .invalidPrice
  | .zeroDivision => .zeroDivision

/-- The duplicate test of `add_expense` against one existing row: a
≥ 6-column row matches on columns 1–5, a legacy 5-column row on all five. -/
def dupMatches (r details : List String) : Bool :=
  (6 ≤ r.length && (r.drop 1).take 5 = details)
    || (r.length = 5 && r = details)

/-- The stored field tuple of a new expense: every field trimmed. -/
def mkDetails (name date price category description : String) : List String :=
  [pyStrip name, pyStrip date, pyStrip price, pyStrip category,
    pyStrip description]

/-- src/logic.py `add_expense`: trim fields, require name/date/category,
validate the price (the text is stored, never the value), migrate the file,
scan for a duplicate visible tuple unless `allow_duplicates`, then append
the row under a fresh id. -/
def add_expense (rows : List (List String))
    (name date price category description : String)
    (allow_duplicates : Bool) (fresh : ℕ → String) :
    Except ExpenseError (List (List String)) :=
  if pyStrip name = "" then .error .missingName
  else if pyStrip date = "" then .error .missingDate
  else if pyStrip category = "" then .error .missingCategory
  else
    match parse_price_to_float (pyStrip price) with
    | .error e => .error (priceToExpenseError e)
    | .ok _ =>
      if !allow_duplicates
          && (migrateFile rows fresh).any
            (fun r => dupMatches r (mkDetails name date price category description))
      then .error .duplicateExpense
      else .ok (migrateFile rows fresh
        ++ [fresh (migrate_expense_ids rows fresh).used
            :: mkDetails name date price category description])

/-- Index-passing map, for stating which fresh id each legacy row gets. -/
def mapWithIdx (f : ℕ → List String → List String) :
    List (List String) → List (List String)
  | [] => []
  | a :: l => f 0 a :: mapWithIdx (fun i r => f (i + 1) r) l

/-! ### Migration lemmas -/

theorem mapWithIdx_congr :
    ∀ (l : List (List String)) (f g : ℕ → List String → List String),
      (∀ i r, f i r = g i r) → mapWithIdx f l = mapWithIdx g l := by
  intro l
  induction l with
  | nil => intro f g _; rfl
  | cons a t ih =>
    intro f g h
    simp only [mapWithIdx]
    rw [h 0 a, ih (fun i r => f (i + 1) r) (fun i r => g (i + 1) r)
      (fun i r => h (i + 1) r)]

theorem migrateGo_legacy (fresh : ℕ → String) :
    ∀ (rows : List (List String)) (seen : List String) (k : ℕ),
      (∀ r ∈ rows, r.length = 5) →
      migrateGo fresh rows seen k =
        (mapWithIdx (fun i r => fresh (k + i) :: r) rows, k + rows.length,
          !rows.isEmpty) := by
  intro rows
  induction rows with
  | nil => intro seen k _; simp [migrateGo, mapWithIdx]
  | cons row rest ih =>
    intro seen k h
    have hr5 : row.length = 5 := h row (List.mem_cons_self row rest)
    have hne : ¬ row = [] := by
      intro he; rw [he] at hr5; exact absurd hr5 (by simp)
    simp only [migrateGo]
    rw [if_neg hne, if_neg (by omega : ¬ 6 ≤ row.length), if_pos hr5]
    rw [ih (fresh k :: seen) (k + 1)
      (fun r hr => h r (List.mem_cons_of_mem _ hr))]
    have hmap : mapWithIdx (fun i r => fresh (k + i) :: r) (row :: rest)
        = (fresh k :: row) :: mapWithIdx (fun i r => fresh (k + 1 + i) :: r) rest := by
      simp only [mapWithIdx, Nat.add_zero]
      congr 1
      exact mapWithIdx_congr rest _ _
        (fun i r => by rw [show k + (i + 1) = k + 1 + i by omega])
    rw [hmap]
    simp only [List.length_cons, List.isEmpty_cons, Prod.mk.injEq, Bool.not_false,
      and_true, true_and]
    omega

theorem mapWithIdx_heads (fresh : ℕ → String) :
    ∀ (rows : List (List String)) (k : ℕ),
      (mapWithIdx (fun i r => fresh (k + i) :: r) rows).map (fun r => r.headD "")
        = (List.range rows.length).map (fun i => fresh (k + i)) := by
  intro rows
  induction rows with
  | nil => intro k; rfl
  | cons row rest ih =>
    intro k
    simp only [mapWithIdx, List.map_cons, List.length_cons,
      List.range_succ_eq_map, List.headD_cons, Nat.add_zero, List.cons.injEq]
    refine ⟨trivial, ?_⟩
    rw [mapWithIdx_congr rest (fun i r => fresh (k + (i + 1)) :: r)
      (fun i r => fresh (k + 1 + i) :: r)
      (fun i r => by
        show fresh (k + (i + 1)) :: r = fresh (k + 1 + i) :: r
        rw [show k + (i + 1) = k + 1 + i by omega])]
    rw [ih (k + 1), List.map_map]
    exact List.map_congr_left (fun i _ => by
      show fresh (k + 1 + i) = fresh (k + Nat.succ i)
      rw [show k + 1 + i = k + Nat.succ i by omega])

theorem migrateGo_noop (fresh : ℕ → String) :
    ∀ (rows : List (List String)) (seen : List String) (k : ℕ),
      (∀ r ∈ rows, r.length = 6 ∧ pyStrip (r.headD "") ≠ "") →
      (rows.map (fun r => pyStrip (r.headD ""))).Nodup →
      (∀ r ∈ rows, pyStrip (r.headD "") ∉ seen) →
      (migrateGo fresh rows seen k).2.1 = k
        ∧ (migrateGo fresh rows seen k).2.2 = false := by
  intro rows
  induction rows with
  | nil => intro seen k _ _ _; exact ⟨rfl, rfl⟩
  | cons row rest ih =>
    intro seen k hlen hnodup hseen
    have h6 : row.length = 6 := (hlen row (List.mem_cons_self row rest)).1
    have hid : pyStrip (row.headD "") ≠ "" := (hlen row (List.mem_cons_self row rest)).2
    have hne : ¬ row = [] := by
      intro he; rw [he] at h6; exact absurd h6 (by simp)
    have hnotseen : pyStrip (row.headD "") ∉ seen := hseen row (List.mem_cons_self row rest)
    simp only [migrateGo]
    rw [if_neg hne, if_pos (by omega : 6 ≤ row.length)]
    rw [if_neg (by
      simp only [Bool.or_eq_true, decide_eq_true_eq, not_or]
      exact ⟨hid, hnotseen⟩)]
    simp only [List.map_cons, List.nodup_cons] at hnodup
    have hrest := ih (pyStrip (row.headD "") :: seen) k
      (fun r hr => hlen r (List.mem_cons_of_mem _ hr))
      hnodup.2
      (fun r hr => by
        simp only [List.mem_cons]
        push_neg
        constructor
        · intro heq
          exact hnodup.1 (heq ▸ List.mem_map_of_mem _ hr)
        · exact hseen r (List.mem_cons_of_mem _ hr))
    refine ⟨hrest.1, ?_⟩
    rw [hrest.2, h6]
    simp

/-- Claim C5: one `migrate_expense_ids` call converts a legacy 5-column
file row-for-row into 6-column id-prefixed rows (the i-th row gets the i-th
fresh id, all original fields kept in order, ids pairwise distinct for an
injective supply, and the file is rewritten); migrating an already-migrated
file — 6 columns per row, distinct non-blank ids — is a no-op: the file is
not rewritten, so every id on disk is unchanged. -/
theorem C5_migration_legacy_once_then_noop :
    (∀ (rows : List (List String)) (fresh : ℕ → String),
        (∀ r ∈ rows, r.length = 5) →
        (migrate_expense_ids rows fresh).rows
            = mapWithIdx (fun i r => fresh i :: r) rows
          ∧ ((migrate_expense_ids rows fresh).rows.map (fun r => r.headD ""))
              = (List.range rows.length).map fresh
          ∧ (rows ≠ [] → (migrate_expense_ids rows fresh).needsWrite = true)
          ∧ (Function.Injective fresh →
              ((migrate_expense_ids rows fresh).rows.map
                (fun r => r.headD "")).Nodup))
    ∧ (∀ (rows : List (List String)) (fresh : ℕ → String),
        (∀ r ∈ rows, r.length = 6 ∧ pyStrip (r.headD "") ≠ "") →
        (rows.map (fun r => pyStrip (r.headD ""))).Nodup →
        (migrate_expense_ids rows fresh).needsWrite = false
          ∧ migrateFile rows fresh = rows) := by
  constructor
  · intro rows fresh hlen
    have hgo := migrateGo_legacy fresh rows [] 0 hlen
    have hzero : ∀ (i : ℕ) (r : List String),
        (fun i r => fresh (0 + i) :: r) i r = (fun i r => fresh i :: r) i r := by
      intro i r
      show fresh (0 + i) :: r = fresh i :: r
      rw [Nat.zero_add]
    have hrows : (migrate_expense_ids rows fresh).rows
        = mapWithIdx (fun i r => fresh i :: r) rows := by
      unfold migrate_expense_ids
      rw [hgo]
      exact mapWithIdx_congr rows _ _ hzero
    have hheads : ((migrate_expense_ids rows fresh).rows.map
        (fun r => r.headD "")) = (List.range rows.length).map fresh := by
      rw [hrows, ← mapWithIdx_congr rows (fun i r => fresh (0 + i) :: r)
        (fun i r => fresh i :: r) hzero]
      rw [mapWithIdx_heads fresh rows 0]
      exact List.map_congr_left (fun i _ => by
        show fresh (0 + i) = fresh i
        rw [Nat.zero_add])
    refine ⟨hrows, hheads, ?_, ?_⟩
    · intro hne
      unfold migrate_expense_ids
      rw [hgo]
      simp [List.isEmpty_iff, hne]
    · intro hinj
      rw [hheads]
      exact (List.nodup_range _).map hinj
  · intro rows fresh hlen hnodup
    have hgo := migrateGo_noop fresh rows [] 0 hlen hnodup
      (fun r _ => List.not_mem_nil _)
    have hw : (migrate_expense_ids rows fresh).needsWrite = false := hgo.2
    exact ⟨hw, by unfold migrateFile; rw [hw]; simp⟩

/-- A concrete id supply for the witnesses: `'u'` followed by `n` copies of
`'z'`; injective, never blank, never equal to the sample file ids. -/
def freshDemo (n : ℕ) : String := ⟨'u' :: List.replicate n 'z'⟩

theorem freshDemo_injective : Function.Injective freshDemo := by
  intro a b h
  have hd := congrArg String.data h
  simp only [freshDemo, List.cons.injEq] at hd
  have := congrArg List.length hd.2
  simpa using this

theorem freshDemo_ne_x1 (n : ℕ) : freshDemo n ≠ "x1" := by
  intro h
  have hd := congrArg String.data h
  simp only [freshDemo] at hd
  simp at hd

/-- Instantiation of C5 at a two-row legacy file and a one-row migrated
file. -/
theorem C5_migration_witness :
    (migrate_expense_ids [["a", "d", "10", "c", ""], ["b", "d", "5", "c", "x"]]
        freshDemo).rows
      = [["u", "a", "d", "10", "c", ""], ["uz", "b", "d", "5", "c", "x"]]
    ∧ (migrate_expense_ids [["a", "d", "10", "c", ""], ["b", "d", "5", "c", "x"]]
        freshDemo).needsWrite = true
    ∧ (migrate_expense_ids [["x1", "a", "d", "10", "c", ""]] freshDemo).needsWrite
      = false
    ∧ migrateFile [["x1", "a", "d", "10", "c", ""]] freshDemo
      = [["x1", "a", "d", "10", "c", ""]] := by
  have h1 := (C5_migration_legacy_once_then_noop.1
    [["a", "d", "10", "c", ""], ["b", "d", "5", "c", "x"]] freshDemo
    (by intro r hr; simp only [List.mem_cons] at hr
        rcases hr with rfl | hr
        · rfl
        · rcases hr with rfl | hr
          · rfl
          · exact absurd hr (List.not_mem_nil _)))
  have h2 := C5_migration_legacy_once_then_noop.2
    [["x1", "a", "d", "10", "c", ""]] freshDemo
    (by intro r hr; simp only [List.mem_cons] at hr
        rcases hr with rfl | hr
        · exact ⟨rfl, by with_unfolding_all decide⟩
        · exact absurd hr (List.not_mem_nil _))
    (by with_unfolding_all decide)
  refine ⟨?_, h1.2.2.1 (by simp), h2.1, h2.2⟩
  rw [h1.1]
  with_unfolding_all rfl

theorem migrateGo_k_le (fresh : ℕ → String) :
    ∀ (rows : List (List String)) (seen : List String) (k : ℕ),
      k ≤ (migrateGo fresh rows seen k).2.1 := by
  intro rows
  induction rows with
  | nil => intro seen k; exact Nat.le_refl k
  | cons row rest ih =>
    intro seen k
    simp only [migrateGo]
    by_cases hre : row = []
    · rw [if_pos hre]; exact ih seen k
    · rw [if_neg hre]
      by_cases h6 : 6 ≤ row.length
      · rw [if_pos h6]
        by_cases hid : (pyStrip (row.headD "") = ""
            || pyStrip (row.headD "") ∈ seen) = true
        · rw [if_pos hid]
          exact Nat.le_trans (Nat.le_succ k) (ih _ (k + 1))
        · rw [if_neg hid]
          exact ih _ k
      · rw [if_neg h6]
        by_cases h5 : row.length = 5
        · rw [if_pos h5]
          exact Nat.le_trans (Nat.le_succ k) (ih _ (k + 1))
        · rw [if_neg h5]
          exact Nat.le_trans (Nat.le_succ k) (ih _ (k + 1))

theorem migrateGo_write_of_long (fresh : ℕ → String) :
    ∀ (rows : List (List String)) (seen : List String) (k : ℕ),
      (∃ r ∈ rows, 6 < r.length) →
      (migrateGo fresh rows seen k).2.2 = true := by
  intro rows
  induction rows with
  | nil =>
    intro seen k h
    obtain ⟨r, hr, _⟩ := h
    exact absurd hr (List.not_mem_nil _)
  | cons row rest ih =>
    intro seen k h
    simp only [migrateGo]
    by_cases hre : row = []
    · rw [if_pos hre]
      obtain ⟨r, hr, hlong⟩ := h
      rcases List.mem_cons.mp hr with rfl | hmem
      · rw [hre] at hlong; exact absurd hlong (by simp)
      · exact ih seen k ⟨r, hmem, hlong⟩
    · rw [if_neg hre]
      by_cases h6 : 6 ≤ row.length
      · rw [if_pos h6]
        by_cases hid : (pyStrip (row.headD "") = ""
            || pyStrip (row.headD "") ∈ seen) = true
        · rw [if_pos hid]
        · rw [if_neg hid]
          obtain ⟨r, hr, hlong⟩ := h
          rcases List.mem_cons.mp hr with rfl | hmem
          · have hne6 : ¬ r.length = 6 := by omega
            simp [hne6]
          · have hrest := ih (pyStrip (row.headD "") :: seen) k ⟨r, hmem, hlong⟩
            simp only [List.headD_eq_head?_getD] at hrest
            simp [hrest]
      · rw [if_neg h6]
        by_cases h5 : row.length = 5
        · rw [if_pos h5]
        · rw [if_neg h5]

/-- Claim C10: a row with more than 6 columns is cut to its first 6 fields —
everything past the sixth column is silently dropped — and its presence
forces a rewrite of the file, so the extra data is lost as soon as any
migration-triggering operation runs. -/
theorem C10_extra_columns_truncated :
    (∀ (rows : List (List String)) (fresh : ℕ → String),
        (∃ r ∈ rows, 6 < r.length) →
        (migrate_expense_ids rows fresh).needsWrite = true)
    ∧ (∀ (row : List String) (fresh : ℕ → String),
        6 < row.length → pyStrip (row.headD "") ≠ "" →
        (migrate_expense_ids [row] fresh).rows
          = [pyStrip (row.headD "") :: (row.drop 1).take 5]) := by
  constructor
  · intro rows fresh h
    exact migrateGo_write_of_long fresh rows [] 0 h
  · intro row fresh hlong hid
    unfold migrate_expense_ids
    simp only [migrateGo]
    rw [if_neg (by intro he; rw [he] at hlong; exact absurd hlong (by simp)),
      if_pos (by omega : 6 ≤ row.length),
      if_neg (by
        simp only [Bool.or_eq_true, decide_eq_true_eq, not_or]
        exact ⟨hid, List.not_mem_nil _⟩)]

/-- Instantiation of C10 at a 7-column row. -/
theorem C10_extra_columns_truncated_witness :
    (migrate_expense_ids [["x1", "a", "d", "10", "c", "", "EXTRA"]] freshDemo).needsWrite
      = true
    ∧ (migrate_expense_ids [["x1", "a", "d", "10", "c", "", "EXTRA"]] freshDemo).rows
      = [["x1", "a", "d", "10", "c", ""]] := by
  refine ⟨C10_extra_columns_truncated.1 _ freshDemo
    ⟨["x1", "a", "d", "10", "c", "", "EXTRA"], List.mem_cons_self _ _, by decide⟩, ?_⟩
  rw [C10_extra_columns_truncated.2 ["x1", "a", "d", "10", "c", "", "EXTRA"] freshDemo
    (by decide) (by with_unfolding_all decide)]
  with_unfolding_all rfl

/-! ### Duplicate detection (claim C6) -/

/-- Migration preserves a row matching the duplicate test, and the
preserved row's id is either a stripped original id or one of the minted
fresh ids. -/
theorem migrateGo_dup (fresh : ℕ → String) (d : List String) :
    ∀ (rows : List (List String)) (seen : List String) (k : ℕ),
      (∃ r ∈ rows, dupMatches r d = true) →
      ∃ r', r' ∈ (migrateGo fresh rows seen k).1 ∧ dupMatches r' d = true ∧
        ((r'.headD "") ∈ rows.map (fun r => pyStrip (r.headD ""))
          ∨ ∃ j, k ≤ j ∧ j < (migrateGo fresh rows seen k).2.1
              ∧ r'.headD "" = fresh j) := by
  intro rows
  induction rows with
  | nil =>
    intro seen k h
    obtain ⟨r, hr, _⟩ := h
    exact absurd hr (List.not_mem_nil _)
  | cons row rest ih =>
    intro seen k h
    simp only [migrateGo]
    by_cases hre : row = []
    · rw [if_pos hre]
      obtain ⟨r, hr, hd⟩ := h
      rcases List.mem_cons.mp hr with rfl | hmem
      · rw [hre] at hd
        unfold dupMatches at hd
        simp at hd
      · obtain ⟨r', hmem', hd', hsrc⟩ := ih seen k ⟨r, hmem, hd⟩
        exact ⟨r', hmem', hd', by
          rcases hsrc with hsrc | hsrc
          · exact Or.inl (List.mem_cons_of_mem _ hsrc)
          · exact Or.inr hsrc⟩
    · rw [if_neg hre]
      by_cases h6 : 6 ≤ row.length
      · rw [if_pos h6]
        obtain ⟨r, hr, hd⟩ := h
        rcases List.mem_cons.mp hr with rfl | hmem
        · -- the matching row is this ≥6-column row
          have htuple : (r.drop 1).take 5 = d := by
            unfold dupMatches at hd
            simp only [Bool.or_eq_true, Bool.and_eq_true, decide_eq_true_eq] at hd
            rcases hd with ⟨_, hd⟩ | ⟨h5, _⟩
            · exact hd
            · omega
          have hmatch : ∀ id0 : String,
              dupMatches (id0 :: (r.drop 1).take 5) d = true := by
            intro id0
            unfold dupMatches
            simp only [Bool.or_eq_true, Bool.and_eq_true, decide_eq_true_eq]
            left
            refine ⟨by simp; omega, ?_⟩
            simp only [List.drop_one, List.tail_cons]
            rw [List.take_take]
            simp only [List.drop_one] at htuple
            simpa using htuple
          by_cases hid : (pyStrip (r.headD "") = ""
              || pyStrip (r.headD "") ∈ seen) = true
          · rw [if_pos hid]
            refine ⟨fresh k :: (r.drop 1).take 5, List.mem_cons_self _ _,
              hmatch _, Or.inr ⟨k, Nat.le_refl k, ?_, rfl⟩⟩
            show k < (migrateGo fresh rest _ (k + 1)).2.1
            exact Nat.lt_of_lt_of_le (Nat.lt_succ_self k) (migrateGo_k_le _ _ _ _)
          · rw [if_neg hid]
            exact ⟨pyStrip (r.headD "") :: (r.drop 1).take 5,
              List.mem_cons_self _ _, hmatch _,
              Or.inl (by simp)⟩
        · -- the matching row is further down
          by_cases hid : (pyStrip (row.headD "") = ""
              || pyStrip (row.headD "") ∈ seen) = true
          · rw [if_pos hid]
            obtain ⟨r', hmem', hd', hsrc⟩ := ih (fresh k :: seen) (k + 1)
              ⟨r, hmem, hd⟩
            refine ⟨r', List.mem_cons_of_mem _ hmem', hd', ?_⟩
            rcases hsrc with hsrc | ⟨j, hj1, hj2, hj3⟩
            · exact Or.inl (List.mem_cons_of_mem _ hsrc)
            · exact Or.inr ⟨j, Nat.le_trans (Nat.le_succ k) hj1, hj2, hj3⟩
          · rw [if_neg hid]
            obtain ⟨r', hmem', hd', hsrc⟩ := ih (pyStrip (row.headD "") :: seen) k
              ⟨r, hmem, hd⟩
            refine ⟨r', List.mem_cons_of_mem _ hmem', hd', ?_⟩
            rcases hsrc with hsrc | hsrc
            · exact Or.inl (List.mem_cons_of_mem _ hsrc)
            · exact Or.inr hsrc
      · rw [if_neg h6]
        obtain ⟨r, hr, hd⟩ := h
        rcases List.mem_cons.mp hr with rfl | hmem
        · -- the matching row is this short row: it must be the 5-column form
          have h5 : r.length = 5 ∧ r = d := by
            unfold dupMatches at hd
            simp only [Bool.or_eq_true, Bool.and_eq_true, decide_eq_true_eq] at hd
            rcases hd with ⟨h6', _⟩ | ⟨h5, hrd⟩
            · omega
            · exact ⟨h5, hrd⟩
          rw [if_pos h5.1]
          refine ⟨fresh k :: r, List.mem_cons_self _ _, ?_,
            Or.inr ⟨k, Nat.le_refl k, ?_, rfl⟩⟩
          · unfold dupMatches
            simp only [Bool.or_eq_true, Bool.and_eq_true, decide_eq_true_eq]
            left
            refine ⟨by simp; omega, ?_⟩
            simp only [List.drop_one, List.tail_cons]
            rw [List.take_of_length_le (by omega), h5.2]
            
          · show k < (migrateGo fresh rest _ (k + 1)).2.1
            exact Nat.lt_of_lt_of_le (Nat.lt_succ_self k) (migrateGo_k_le _ _ _ _)
        · -- the matching row is further down
          by_cases h5 : row.length = 5
          · rw [if_pos h5]
            obtain ⟨r', hmem', hd', hsrc⟩ := ih (fresh k :: seen) (k + 1)
              ⟨r, hmem, hd⟩
            refine ⟨r', List.mem_cons_of_mem _ hmem', hd', ?_⟩
            rcases hsrc with hsrc | ⟨j, hj1, hj2, hj3⟩
            · exact Or.inl (List.mem_cons_of_mem _ hsrc)
            · exact Or.inr ⟨j, Nat.le_trans (Nat.le_succ k) hj1, hj2, hj3⟩
          · rw [if_neg h5]
            obtain ⟨r', hmem', hd', hsrc⟩ := ih (fresh k :: seen) (k + 1)
              ⟨r, hmem, hd⟩
            refine ⟨r', List.mem_cons_of_mem _ hmem', hd', ?_⟩
            rcases hsrc with hsrc | ⟨j, hj1, hj2, hj3⟩
            · exact Or.inl (List.mem_cons_of_mem _ hsrc)
            · exact Or.inr ⟨j, Nat.le_trans (Nat.le_succ k) hj1, hj2, hj3⟩

/-- The duplicate test survives `migrate_expense_ids` having run on the
file, and the surviving row's id is an original id, a stripped original id,
or a minted fresh id below `used`. -/
theorem migrateFile_dup (fresh : ℕ → String) (d : List String)
    (rows : List (List String))
    (h : ∃ r ∈ rows, dupMatches r d = true) :
    ∃ r', r' ∈ migrateFile rows fresh ∧ dupMatches r' d = true ∧
      ((r'.headD "") ∈ rows.map (fun r => pyStrip (r.headD ""))
        ∨ (r'.headD "") ∈ rows.map (fun r => r.headD "")
        ∨ ∃ j, j < (migrate_expense_ids rows fresh).used
            ∧ r'.headD "" = fresh j) := by
  unfold migrateFile
  by_cases hw : (migrate_expense_ids rows fresh).needsWrite = true
  · rw [if_pos hw]
    obtain ⟨r', hmem, hd', hsrc⟩ := migrateGo_dup fresh d rows [] 0 h
    refine ⟨r', hmem, hd', ?_⟩
    rcases hsrc with hsrc | ⟨j, _, hj2, hj3⟩
    · exact Or.inl hsrc
    · exact Or.inr (Or.inr ⟨j, hj2, hj3⟩)
  · rw [if_neg hw]
    obtain ⟨r, hmem, hd'⟩ := h
    exact ⟨r, hmem, hd', Or.inr (Or.inl (List.mem_map_of_mem _ hmem))⟩

/-- Claim C6: adding an expense whose trimmed field tuple textually equals
an existing row's visible tuple (id excluded) fails with
`DuplicateExpense` and appends nothing; with `allow_duplicates` it
succeeds, and the old and new row carry distinct ids.  The comparison is on
raw stored text, so rows differing only in id are duplicates while the
prices `"10"` and `"5+5"` are not duplicates of each other. -/
theorem C6_duplicate_tuple_detection :
    (∀ (rows : List (List String))
        (name date price category description : String) (fresh : ℕ → String),
        pyStrip name ≠ "" → pyStrip date ≠ "" → pyStrip category ≠ "" →
        (∃ v, parse_price_to_float (pyStrip price) = .ok v) →
        (∃ r ∈ rows,
          dupMatches r (mkDetails name date price category description) = true) →
        add_expense rows name date price category description false fresh
            = .error .duplicateExpense
          ∧ (Function.Injective fresh →
              (∀ n, ∀ r ∈ rows,
                fresh n ≠ r.headD "" ∧ fresh n ≠ pyStrip (r.headD "")) →
              add_expense rows name date price category description true fresh
                  = .ok (migrateFile rows fresh
                      ++ [fresh (migrate_expense_ids rows fresh).used
                          :: mkDetails name date price category description])
                ∧ ∃ r', r' ∈ migrateFile rows fresh
                    ∧ dupMatches r'
                        (mkDetails name date price category description) = true
                    ∧ r'.headD "" ≠ fresh (migrate_expense_ids rows fresh).used))
    ∧ add_expense [["x1", "a", "d", "10", "c", ""]] "a" "d" "5+5" "c" "" false
        freshDemo
      = .ok [["x1", "a", "d", "10", "c", ""], ["u", "a", "d", "5+5", "c", ""]] := by
  constructor
  · intro rows name date price category description fresh hname hdate hcat hprice hdup
    obtain ⟨v, hv⟩ := hprice
    obtain ⟨r', hmem', hd', hsrc⟩ := migrateFile_dup fresh
      (mkDetails name date price category description) rows hdup
    have hany : (migrateFile rows fresh).any
        (fun r => dupMatches r (mkDetails name date price category description))
        = true :=
      List.any_eq_true.mpr ⟨r', hmem', hd'⟩
    constructor
    · unfold add_expense
      rw [if_neg hname, if_neg hdate, if_neg hcat, hv]
      simp [hany]
    · intro hinj hfree
      constructor
      · unfold add_expense
        rw [if_neg hname, if_neg hdate, if_neg hcat, hv]
        simp
      · refine ⟨r', hmem', hd', ?_⟩
        intro hcontra
        rcases hsrc with hsrc | hsrc | ⟨j, hj, hjeq⟩
        · obtain ⟨r0, hr0, heq⟩ := List.mem_map.mp hsrc
          exact (hfree (migrate_expense_ids rows fresh).used r0 hr0).2
            (by rw [heq, hcontra])
        · obtain ⟨r0, hr0, heq⟩ := List.mem_map.mp hsrc
          exact (hfree (migrate_expense_ids rows fresh).used r0 hr0).1
            (by rw [heq, hcontra])
        · have : j = (migrate_expense_ids rows fresh).used :=
            hinj (by rw [← hjeq, hcontra])
          omega
  · have h10 : dupMatches ["x1", "a", "d", "10", "c", ""]
        (mkDetails "a" "d" "5+5" "c" "") = false := by
      with_unfolding_all rfl
    unfold add_expense
    rw [if_neg (by with_unfolding_all decide),
      if_neg (by with_unfolding_all decide),
      if_neg (by with_unfolding_all decide),
      show parse_price_to_float (pyStrip "5+5") = .ok 10 by with_unfolding_all rfl]
    have hmig : migrateFile [["x1", "a", "d", "10", "c", ""]] freshDemo
        = [["x1", "a", "d", "10", "c", ""]] := by
      with_unfolding_all rfl
    have hused : (migrate_expense_ids [["x1", "a", "d", "10", "c", ""]]
        freshDemo).used = 0 := by
      with_unfolding_all rfl
    simp only [hmig, hused, h10, List.any_cons, List.any_nil, Bool.or_false,
      Bool.not_false, Bool.true_and, if_false]
    rw [show freshDemo 0 = "u" from rfl,
      show mkDetails "a" "d" "5+5" "c" "" = ["a", "d", "5+5", "c", ""] by
        with_unfolding_all rfl]
    rfl

/-- Instantiation of C6: the same tuple under a different id is rejected as
a duplicate, and with `allow_duplicates` both rows coexist under distinct
ids. -/
theorem C6_duplicate_tuple_detection_witness :
    add_expense [["x1", "a", "d", "10", "c", ""]] "a" "d" "10" "c" "" false
        freshDemo
      = .error .duplicateExpense
    ∧ add_expense [["x1", "a", "d", "10", "c", ""]] "a" "d" "10" "c" "" true
        freshDemo
      = .ok [["x1", "a", "d", "10", "c", ""], ["u", "a", "d", "10", "c", ""]] := by
  have h := C6_duplicate_tuple_detection.1 [["x1", "a", "d", "10", "c", ""]]
    "a" "d" "10" "c" "" freshDemo
    (by with_unfolding_all decide) (by with_unfolding_all decide)
    (by with_unfolding_all decide)
    ⟨10, by with_unfolding_all rfl⟩
    ⟨["x1", "a", "d", "10", "c", ""], List.mem_cons_self _ _,
      by with_unfolding_all rfl⟩
  refine ⟨h.1, ?_⟩
  have h2 := (h.2 freshDemo_injective (fun n r hr => by
    simp only [List.mem_cons] at hr
    rcases hr with rfl | hr
    · exact ⟨freshDemo_ne_x1 n, by
        rw [show pyStrip (List.headD ["x1", "a", "d", "10", "c", ""] "") = "x1"
          by with_unfolding_all rfl]
        exact freshDemo_ne_x1 n⟩
    · exact absurd hr (List.not_mem_nil _))).1
  rw [h2]
  with_unfolding_all rfl

/-! ## JSON model

JSON values as parsed by `json.loads`; an unreadable or missing file is the
`none` of an `Option Json`.  Objects are association lists read first-match
(the repository never writes duplicate keys). -/

inductive Json where
  | null : Json
  | bool : Bool → Json
  | num : ℚ → Json
  | str : String → Json
  | arr : List Json → Json
  | obj : List (String × Json) → Json

/-- Association-list lookup, the model of `dict.get`. -/
def alookup {α : Type} (k : String) : List (String × α) → Option α
  | [] => none
  | (k', v) :: rest => if k' = k then some v else alookup k rest

/-! ## CategoryRegistry (src/logic.py `load_category_options`,
`save_category_options`, `remove_category`) -/

def DEFAULT_CATEGORIES : List String :=
  ["Nourriture", "Vie quotidienne", "Santé", "Loisir", "Vêtement",
    "Transport", "Coiffeur", "Épargne"]

/-- `DEFAULT_CATEGORY_COLORS.get(name, "")` as a total lookup. -/
def defaultColorOf (name : String) : String :=
  if name = "Nourriture" then "#FFC0CB"
  else if name = "Vie quotidienne" then "#008080"
  else if name = "Santé" then "#b92020"
  else if name = "Loisir" then "#800080"
  else if name = "Vêtement" then "#20b7b9"
  else if name = "Transport" then "#808080"
  else if name = "Coiffeur" then "#A52A2A"
  else if name = "Épargne" then "#008000"
  else ""

def isHexDigit (c : Char) : Bool :=
  c.isDigit || ('a' ≤ c && c ≤ 'f') || ('A' ≤ c && c ≤ 'F')

/-- src/logic.py `_normalize_hex_color` on an actual string. -/
def normHexStr (color : String) : String :=
  if pyStrip color = "" then ""
  else if (pyStrip color).data.headD ' ' ≠ '#' then ""
  else if ¬ ((pyStrip color).length = 4 ∨ (pyStrip color).length = 7) then ""
  else if ((pyStrip color).data.drop 1).all isHexDigit then pyStrip color
  else ""

/-- `_normalize_hex_color` on a JSON field value (non-strings give `""`). -/
def normalize_hex_color (j : Option Json) : String :=
  match j with
  | some (.str s) => normHexStr s
  | _ => ""

/-- The legacy branch of `load_category_options`: trim, drop blanks,
dedupe case-insensitively keeping first occurrences; colors come from the
default map. -/
def processLegacyGo : List String → List String → List String × List (String × String)
  | [], _ => ([], [])
  | s :: rest, seen =>
    if pyStrip s = "" then processLegacyGo rest seen
    else if lowerKey (pyStrip s) ∈ seen then processLegacyGo rest seen
    else
      (pyStrip s :: (processLegacyGo rest (lowerKey (pyStrip s) :: seen)).1,
        (pyStrip s, defaultColorOf (pyStrip s)) ::
          (processLegacyGo rest (lowerKey (pyStrip s) :: seen)).2)

/-- The object-form branch of `load_category_options`: keep dict items with
a non-blank string `name`, dedupe case-insensitively, normalize the color
with fallback to the default color. -/
def processObjectGo : List Json → List String → List String × List (String × String)
  | [], _ => ([], [])
  | item :: rest, seen =>
    match item with
    | .obj fields =>
      match alookup "name" fields with
      | some (.str nm) =>
        if pyStrip nm = "" then processObjectGo rest seen
        else if lowerKey (pyStrip nm) ∈ seen then processObjectGo rest seen
        else
          (pyStrip nm :: (processObjectGo rest (lowerKey (pyStrip nm) :: seen)).1,
            (pyStrip nm,
              if normalize_hex_color (alookup "color" fields) = ""
              then defaultColorOf (pyStrip nm)
              else normalize_hex_color (alookup "color" fields)) ::
              (processObjectGo rest (lowerKey (pyStrip nm) :: seen)).2)
      | _ => processObjectGo rest seen
    | _ => processObjectGo rest seen

def isStrJson : Json → Bool
  | .str _ => true
  | _ => false

def stringOf : Json → String
  | .str s => s
  | _ => ""

/-- The built-in default category list paired with its colors. -/
def defaultPair : List String × List (String × String) :=
  (DEFAULT_CATEGORIES, DEFAULT_CATEGORIES.map (fun c => (c, defaultColorOf c)))

/-- The branch of `load_category_options` on the `categories` field: a
non-empty all-string list is the legacy format, any other list the object
form; anything else (or an empty result after filtering) falls back to the
defaults. -/
def loadFromCategories (raw : Option Json) :
    List String × List (String × String) :=
  match raw with
  | some (.arr items) =>
    if !items.isEmpty && items.all isStrJson then
      if (processLegacyGo (items.map stringOf) []).1 = [] then defaultPair
      else processLegacyGo (items.map stringOf) []
    else
      if (processObjectGo items []).1 = [] then defaultPair
      else processObjectGo items []
  | _ => defaultPair

/-- src/logic.py `load_category_options`: missing or unreadable file and a
non-object value fall back to the defaults, else the `categories` field is
read.  (Every successful load also re-persists `normalizeFile` below.) -/
def load_category_options (file : Option Json) :
    List String × List (String × String) :=
  match file with
  | none => defaultPair
  | some j =>
    match j with
    | .obj fields => loadFromCategories (alookup "categories" fields)
    | _ => defaultPair

/-- The color stored for `nm`: `colors.get(nm)`, absent read as `""`. -/
def colorOf (colors : List (String × String)) (nm : String) : String :=
  (alookup nm colors).getD ""

/-- One persisted `{"name": ..., "color": ...}` entry. -/
def savedItem (colors : List (String × String)) (nm : String) : Json :=
  .obj [("name", .str nm), ("color", .str (normHexStr (colorOf colors nm)))]

/-- src/logic.py `save_category_options`: object-form JSON, one entry per
name in order, colors re-normalized (`""` when invalid or absent). -/
def save_category_options (categories : List String)
    (colors : List (String × String)) : Json :=
  .obj [("categories", .arr (categories.map (savedItem colors)))]

/-- What a load leaves on disk: the normalized object form. -/
def normalizeFile (file : Option Json) : Json :=
  save_category_options (load_category_options file).1
    (load_category_options file).2

inductive CatError where
  | emptyName : CatError
  | duplicateCategory : CatError
  | categoryNotFound : CatError
deriving DecidableEq

/-- The names surviving `remove_category`'s case-insensitive filter. -/
def removeRemaining (file : Option Json) (name : String) : List String :=
  (load_category_options file).1.filter
    (fun c => !(lowerKey c = lowerKey (pyStrip name)))

/-- src/logic.py `save_categories`: keep the stored color of a retained
name, else its default color. -/
def saveCategoriesColors (file1 : Option Json) (categories : List String) :
    List (String × String) :=
  categories.map (fun nm =>
    match alookup nm (load_category_options file1).2 with
    | some c => (nm, c)
    | none => (nm, defaultColorOf nm))

/-- src/logic.py `remove_category`: blank name fails; a name matching no
category (case-insensitively) fails; otherwise the remaining names are
saved (the earlier load had already persisted the normalized file, which
`save_categories` reloads for colors) and returned with the new file. -/
def remove_category (file : Option Json) (name : String) :
    Except CatError (List String × Json) :=
  if pyStrip name = "" then .error .emptyName
  else if (removeRemaining file name).length
      = (load_category_options file).1.length then .error .categoryNotFound
  else .ok (removeRemaining file name,
    save_category_options (removeRemaining file name)
      (saveCategoriesColors (some (normalizeFile file))
        (removeRemaining file name)))

/-! ## BudgetStore (`load_budgets` / `save_budgets`)

The window layer calls `logic.load_budgets` and `logic.save_budgets`
(src/window.py lines 389 and 565) but src/logic.py contains no definition
of either, so the store is modelled from spec §4.4. -/

/-- Modelled from the spec: `save_budgets(path, data)` "writes the nested
structure verbatim" — year string → month string → category → amount.  The
function itself is absent from src/. -/
def save_budgets (data : List (String × List (String × List (String × ℚ)))) :
    Json :=
  .obj (data.map (fun y => (y.1,
    Json.obj (y.2.map (fun m => (m.1,
      Json.obj (m.2.map (fun c => (c.1, Json.num c.2)))))))))

def decodeAmount : Json → Option ℚ
  | .num q => some q
  | _ => none

def decodeCats : Json → Option (List (String × ℚ))
  | .obj fs => fs.mapM (fun p => (decodeAmount p.2).map (fun v => (p.1, v)))
  | _ => none

def decodeMonths : Json → Option (List (String × List (String × ℚ)))
  | .obj fs => fs.mapM (fun p => (decodeCats p.2).map (fun v => (p.1, v)))
  | _ => none

def decodeBudgets : Json → Option (List (String × List (String × List (String × ℚ))))
  | .obj fs => fs.mapM (fun p => (decodeMonths p.2).map (fun v => (p.1, v)))
  | _ => none

/-- Modelled from the spec: `load_budgets(path)` returns the nested
year → month → category → amount map, and a missing or corrupt file gives
the empty map with no error.  The function itself is absent from src/. -/
def load_budgets (file : Option Json) :
    List (String × List (String × List (String × ℚ))) :=
  match file with
  | none => []
  | some j => (decodeBudgets j).getD []

/-! ### Registry lemmas (claims C7, C8) -/

theorem trimChars_idem (cs : List Char) : trimChars (trimChars cs) = trimChars cs :=
  trimChars_eq_self (headNotWs_trimChars cs) (headNotWs_trimChars_rev cs)

theorem pyStrip_idem (s : String) : pyStrip (pyStrip s) = pyStrip s :=
  congrArg String.mk (trimChars_idem s.data)

/-- A color string already in the shape `_normalize_hex_color` produces. -/
def isNormColor (c : String) : Bool :=
  c = "" || (pyStrip c = c && c.data.headD ' ' = '#'
    && (c.length = 4 || c.length = 7) && (c.data.drop 1).all isHexDigit)

theorem normHexStr_isNorm (x : String) : isNormColor (normHexStr x) = true := by
  unfold normHexStr
  by_cases h1 : pyStrip x = ""
  · rw [if_pos h1]; with_unfolding_all decide
  · rw [if_neg h1]
    by_cases h2 : (pyStrip x).data.headD ' ' ≠ '#'
    · rw [if_pos h2]; with_unfolding_all decide
    · rw [if_neg h2]
      push_neg at h2
      by_cases h3 : ¬ ((pyStrip x).length = 4 ∨ (pyStrip x).length = 7)
      · rw [if_pos h3]; with_unfolding_all decide
      · rw [if_neg h3]
        have h3' := not_not.mp h3
        by_cases h4 : ((pyStrip x).data.drop 1).all isHexDigit = true
        · rw [if_pos h4]
          unfold isNormColor
          simp only [Bool.or_eq_true, Bool.and_eq_true, decide_eq_true_eq]
          exact Or.inr ⟨⟨⟨pyStrip_idem x, h2⟩, h3'⟩, h4⟩
        · rw [if_neg h4]; with_unfolding_all decide

theorem isNormColor_fix {c : String} (h : isNormColor c = true) :
    normHexStr c = c := by
  unfold isNormColor at h
  simp only [Bool.or_eq_true, Bool.and_eq_true, decide_eq_true_eq] at h
  rcases h with h | ⟨⟨⟨hstrip, hhead⟩, hlen⟩, hhex⟩
  · rw [h]; with_unfolding_all rfl
  · by_cases hc : c = ""
    · rw [hc]; with_unfolding_all rfl
    · unfold normHexStr
      rw [hstrip]
      rw [if_neg hc, if_neg (by rw [hhead]; exact fun hne => hne rfl),
        if_neg (by rw [not_not]; rcases hlen with h | h
                   · exact Or.inl (by rw [h])
                   · exact Or.inr (by rw [h])),
        if_pos hhex]

theorem normHexStr_idem (x : String) : normHexStr (normHexStr x) = normHexStr x :=
  isNormColor_fix (normHexStr_isNorm x)

theorem defaultColorOf_fix (n : String) :
    normHexStr (defaultColorOf n) = defaultColorOf n := by
  unfold defaultColorOf
  split_ifs <;> with_unfolding_all rfl

theorem normalize_hex_color_fix (j : Option Json) :
    normHexStr (normalize_hex_color j) = normalize_hex_color j := by
  unfold normalize_hex_color
  match j with
  | none => with_unfolding_all rfl
  | some (.str s) => exact normHexStr_idem s
  | some .null => with_unfolding_all rfl
  | some (.bool b) => with_unfolding_all rfl
  | some (.num q) => with_unfolding_all rfl
  | some (.arr l) => with_unfolding_all rfl
  | some (.obj l) => with_unfolding_all rfl

/-- The invariant every `(names, colors)` pair produced by
`load_category_options` satisfies. -/
structure GoodOpts (ns : List String) (cs : List (String × String)) : Prop where
  nonempty : ns ≠ []
  trimmed : ∀ n ∈ ns, pyStrip n = n ∧ n ≠ ""
  nodup : (ns.map lowerKey).Nodup
  keys : cs.map Prod.fst = ns
  colors : ∀ p ∈ cs, normHexStr p.2 = p.2 ∧ (p.2 = "" → defaultColorOf p.1 = "")

theorem alookup_map_self {α : Type} (g : String → α) :
    ∀ (ns : List String) (n : String), n ∈ ns →
      alookup n (ns.map (fun m => (m, g m))) = some (g n) := by
  intro ns
  induction ns with
  | nil => intro n hn; exact absurd hn (List.not_mem_nil _)
  | cons m rest ih =>
    intro n hn
    simp only [List.map_cons, alookup]
    by_cases hm : m = n
    · rw [if_pos hm, hm]
    · rw [if_neg hm]
      rcases List.mem_cons.mp hn with rfl | hn
      · exact absurd rfl hm
      · exact ih n hn

theorem alookup_mem {α : Type} :
    ∀ (l : List (String × α)) (k : String) (v : α),
      alookup k l = some v → (k, v) ∈ l := by
  intro l
  induction l with
  | nil => intro k v h; exact Option.noConfusion h
  | cons p rest ih =>
    obtain ⟨k0, v0⟩ := p
    intro k v h
    simp only [alookup] at h
    by_cases hk : k0 = k
    · rw [if_pos hk] at h
      injection h with h
      subst hk
      subst h
      exact List.mem_cons_self _ _
    · rw [if_neg hk] at h
      exact List.mem_cons_of_mem _ (ih k v h)

theorem alookup_isSome_of_key {α : Type} :
    ∀ (l : List (String × α)) (k : String), k ∈ l.map Prod.fst →
      ∃ v, alookup k l = some v := by
  intro l
  induction l with
  | nil => intro k hk; exact absurd hk (List.not_mem_nil _)
  | cons p rest ih =>
    intro k hk
    simp only [alookup]
    by_cases hp : p.1 = k
    · exact ⟨p.2, by rw [if_pos hp]⟩
    · rcases List.mem_cons.mp hk with heq | hk
      · exact absurd heq.symm hp
      · obtain ⟨v, hv⟩ := ih k hk
        exact ⟨v, by rw [if_neg hp]; exact hv⟩

theorem processLegacyGo_spec :
    ∀ (ss : List String) (seen : List String),
      (∀ n ∈ (processLegacyGo ss seen).1,
          pyStrip n = n ∧ n ≠ "" ∧ lowerKey n ∉ seen)
      ∧ ((processLegacyGo ss seen).1.map lowerKey).Nodup
      ∧ (processLegacyGo ss seen).2
          = (processLegacyGo ss seen).1.map (fun n => (n, defaultColorOf n)) := by
  intro ss
  induction ss with
  | nil =>
    intro seen
    exact ⟨fun n h => absurd h (List.not_mem_nil _), List.nodup_nil, rfl⟩
  | cons s rest ih =>
    intro seen
    simp only [processLegacyGo]
    by_cases h1 : pyStrip s = ""
    · rw [if_pos h1]; exact ih seen
    · rw [if_neg h1]
      by_cases h2 : lowerKey (pyStrip s) ∈ seen
      · rw [if_pos h2]; exact ih seen
      · rw [if_neg h2]
        obtain ⟨ihn, ihd, ihc⟩ := ih (lowerKey (pyStrip s) :: seen)
        refine ⟨?_, ?_, ?_⟩
        · intro n hn
          rcases List.mem_cons.mp hn with rfl | hn
          · exact ⟨pyStrip_idem s, h1, h2⟩
          · obtain ⟨ha, hb, hc⟩ := ihn n hn
            exact ⟨ha, hb, fun hmem => hc (List.mem_cons_of_mem _ hmem)⟩
        · simp only [List.map_cons, List.nodup_cons]
          refine ⟨?_, ihd⟩
          intro hmem
          obtain ⟨n, hn, heq⟩ := List.mem_map.mp hmem
          exact (ihn n hn).2.2 (heq ▸ List.mem_cons_self _ _)
        · simp only [List.map_cons]
          rw [ihc]

theorem processObjectGo_spec :
    ∀ (items : List Json) (seen : List String),
      (∀ n ∈ (processObjectGo items seen).1,
          pyStrip n = n ∧ n ≠ "" ∧ lowerKey n ∉ seen)
      ∧ ((processObjectGo items seen).1.map lowerKey).Nodup
      ∧ ((processObjectGo items seen).2.map Prod.fst
          = (processObjectGo items seen).1)
      ∧ (∀ p ∈ (processObjectGo items seen).2,
          normHexStr p.2 = p.2 ∧ (p.2 = "" → defaultColorOf p.1 = "")) := by
  intro items
  induction items with
  | nil =>
    intro seen
    exact ⟨fun n h => absurd h (List.not_mem_nil _), List.nodup_nil, rfl,
      fun p h => absurd h (List.not_mem_nil _)⟩
  | cons item rest ih =>
    intro seen
    cases item with
    | null => exact ih seen
    | bool b => exact ih seen
    | num q => exact ih seen
    | str s => exact ih seen
    | arr l => exact ih seen
    | obj fields =>
      cases hname : alookup "name" fields with
      | none => simp only [processObjectGo, hname]; exact ih seen
      | some jv =>
        cases jv with
        | null => simp only [processObjectGo, hname]; exact ih seen
        | bool b => simp only [processObjectGo, hname]; exact ih seen
        | num q => simp only [processObjectGo, hname]; exact ih seen
        | arr l => simp only [processObjectGo, hname]; exact ih seen
        | obj l => simp only [processObjectGo, hname]; exact ih seen
        | str nm =>
          by_cases h1 : pyStrip nm = ""
          · simp only [processObjectGo, hname, if_pos h1]; exact ih seen
          · by_cases h2 : lowerKey (pyStrip nm) ∈ seen
            · simp only [processObjectGo, hname, if_neg h1, if_pos h2]
              exact ih seen
            · simp only [processObjectGo, hname, if_neg h1, if_neg h2]
              obtain ⟨ihn, ihd, ihk, ihc⟩ := ih (lowerKey (pyStrip nm) :: seen)
              refine ⟨?_, ?_, ?_, ?_⟩
              · intro n hn
                rcases List.mem_cons.mp hn with rfl | hn
                · exact ⟨pyStrip_idem nm, h1, h2⟩
                · obtain ⟨ha, hb, hc⟩ := ihn n hn
                  exact ⟨ha, hb, fun hmem => hc (List.mem_cons_of_mem _ hmem)⟩
              · simp only [List.map_cons, List.nodup_cons]
                refine ⟨?_, ihd⟩
                intro hmem
                obtain ⟨n, hn, heq⟩ := List.mem_map.mp hmem
                exact (ihn n hn).2.2 (heq ▸ List.mem_cons_self _ _)
              · simp only [List.map_cons]
                rw [ihk]
              · intro p hp
                rcases List.mem_cons.mp hp with rfl | hp
                · constructor
                  · by_cases hcol : normalize_hex_color (alookup "color" fields) = ""
                    · simp only [hcol, if_pos rfl]
                      exact defaultColorOf_fix _
                    · simp only [if_neg hcol]
                      exact normalize_hex_color_fix _
                  · intro hv
                    by_cases hcol : normalize_hex_color (alookup "color" fields) = ""
                    · simp only [hcol, if_pos rfl] at hv
                      exact hv
                    · simp only [if_neg hcol] at hv
                      exact absurd hv hcol
                · exact ihc p hp

theorem goodOpts_default : GoodOpts defaultPair.1 defaultPair.2 := by
  exact ⟨by with_unfolding_all decide, by with_unfolding_all decide,
    by with_unfolding_all decide, by with_unfolding_all decide,
    by with_unfolding_all decide⟩

theorem loadFromCategories_good (raw : Option Json) :
    GoodOpts (loadFromCategories raw).1 (loadFromCategories raw).2 := by
  match raw with
  | none => exact goodOpts_default
  | some .null => exact goodOpts_default
  | some (.bool b) => exact goodOpts_default
  | some (.num q) => exact goodOpts_default
  | some (.str s) => exact goodOpts_default
  | some (.obj fs) => exact goodOpts_default
  | some (.arr items) =>
    simp only [loadFromCategories]
    by_cases hleg : (!items.isEmpty && items.all isStrJson) = true
    · rw [if_pos hleg]
      by_cases hempty : (processLegacyGo (items.map stringOf) []).1 = []
      · rw [if_pos hempty]; exact goodOpts_default
      · rw [if_neg hempty]
        obtain ⟨hn, hd, hc⟩ := processLegacyGo_spec (items.map stringOf) []
        refine ⟨hempty, fun n hn' => ⟨(hn n hn').1, (hn n hn').2.1⟩, hd, ?_, ?_⟩
        · rw [hc, List.map_map,
            show (Prod.fst ∘ fun n : String => (n, defaultColorOf n)) = id from rfl,
            List.map_id]
        · intro p hp
          rw [hc] at hp
          obtain ⟨n, _, rfl⟩ := List.mem_map.mp hp
          exact ⟨defaultColorOf_fix n, fun h => h⟩
    · rw [if_neg hleg]
      by_cases hempty : (processObjectGo items []).1 = []
      · rw [if_pos hempty]; exact goodOpts_default
      · rw [if_neg hempty]
        obtain ⟨hn, hd, hk, hc⟩ := processObjectGo_spec items []
        exact ⟨hempty, fun n hn' => ⟨(hn n hn').1, (hn n hn').2.1⟩, hd, hk, hc⟩

theorem load_good (file : Option Json) :
    GoodOpts (load_category_options file).1 (load_category_options file).2 := by
  match file with
  | none => exact goodOpts_default
  | some .null => exact goodOpts_default
  | some (.bool b) => exact goodOpts_default
  | some (.num q) => exact goodOpts_default
  | some (.str s) => exact goodOpts_default
  | some (.arr l) => exact goodOpts_default
  | some (.obj fields) => exact loadFromCategories_good (alookup "categories" fields)

/-- Re-reading a saved registry reproduces the names and colors. -/
theorem processObjectGo_saved (cs : List (String × String)) :
    ∀ (ns : List String) (seen : List String),
      (∀ n ∈ ns, pyStrip n = n ∧ n ≠ "") →
      (∀ n ∈ ns, lowerKey n ∉ seen) →
      (ns.map lowerKey).Nodup →
      (∀ n ∈ ns, normHexStr (colorOf cs n) = colorOf cs n
        ∧ (colorOf cs n = "" → defaultColorOf n = "")) →
      processObjectGo (ns.map (savedItem cs)) seen
        = (ns, ns.map (fun n => (n, colorOf cs n))) := by
  intro ns
  induction ns with
  | nil => intro seen _ _ _ _; rfl
  | cons n rest ih =>
    intro seen htrim hseen hnodup hcol
    have hn := htrim n (List.mem_cons_self n rest)
    have hlook : alookup "name" [("name", Json.str n),
        ("color", Json.str (normHexStr (colorOf cs n)))] = some (Json.str n) := by
      simp [alookup]
    have hlookc : alookup "color" [("name", Json.str n),
        ("color", Json.str (normHexStr (colorOf cs n)))]
        = some (Json.str (normHexStr (colorOf cs n))) := by
      simp [alookup]
    simp only [List.map_cons, savedItem, processObjectGo, hlook, hlookc]
    rw [hn.1]
    rw [if_neg hn.2, if_neg (hseen n (List.mem_cons_self n rest))]
    have hstored : normalize_hex_color (some (Json.str (normHexStr (colorOf cs n))))
        = normHexStr (colorOf cs n) := normHexStr_idem _
    rw [hstored]
    have hfix := (hcol n (List.mem_cons_self n rest)).1
    rw [hfix]
    have hcv : (if colorOf cs n = "" then defaultColorOf n else colorOf cs n)
        = colorOf cs n := by
      by_cases hc0 : colorOf cs n = ""
      · rw [if_pos hc0, (hcol n (List.mem_cons_self n rest)).2 hc0, hc0]
      · rw [if_neg hc0]
    rw [hcv]
    rw [ih (lowerKey n :: seen)
      (fun m hm => htrim m (List.mem_cons_of_mem _ hm))
      (fun m hm => by
        simp only [List.mem_cons]
        push_neg
        refine ⟨?_, hseen m (List.mem_cons_of_mem _ hm)⟩
        intro heq
        simp only [List.map_cons, List.nodup_cons] at hnodup
        exact hnodup.1 (heq ▸ List.mem_map_of_mem _ hm))
      (by simp only [List.map_cons, List.nodup_cons] at hnodup; exact hnodup.2)
      (fun m hm => hcol m (List.mem_cons_of_mem _ hm))]

theorem load_saved {ns : List String} {cs : List (String × String)}
    (h : GoodOpts ns cs) :
    load_category_options (some (save_category_options ns cs))
      = (ns, ns.map (fun n => (n, colorOf cs n))) := by
  obtain ⟨hne, htrim, hnodup, hkeys, hcolors⟩ := h
  have hcol : ∀ n ∈ ns, normHexStr (colorOf cs n) = colorOf cs n
      ∧ (colorOf cs n = "" → defaultColorOf n = "") := by
    intro n hn
    have hk : n ∈ cs.map Prod.fst := by rw [hkeys]; exact hn
    obtain ⟨v, hv⟩ := alookup_isSome_of_key cs n hk
    have hp := hcolors (n, v) (alookup_mem cs n v hv)
    have hcv : colorOf cs n = v := by unfold colorOf; rw [hv]; rfl
    rw [hcv]
    exact ⟨hp.1, hp.2⟩
  have hproc := processObjectGo_saved cs ns []
    htrim (fun n _ => List.not_mem_nil _) hnodup hcol
  have hguard : (!(ns.map (savedItem cs)).isEmpty
      && (ns.map (savedItem cs)).all isStrJson) = false := by
    cases ns with
    | nil => exact absurd rfl hne
    | cons n rest => simp [savedItem, isStrJson]
  show loadFromCategories (alookup "categories"
      [("categories", Json.arr (ns.map (savedItem cs)))]) = _
  rw [show alookup "categories"
      [("categories", Json.arr (ns.map (savedItem cs)))]
      = some (Json.arr (ns.map (savedItem cs))) by simp [alookup]]
  simp only [loadFromCategories, hguard, Bool.false_eq_true, if_false]
  rw [hproc]
  have hne' : ¬ (((ns, ns.map (fun n => (n, colorOf cs n)))
      : List String × List (String × String)).1 = []) := hne
  rw [if_neg hne']

/-- Claim C7: loading an already-normalized category file and saving it
again reproduces the same persisted JSON structure: one load-then-save
normalizes, and a second load-then-save is a fixed point. -/
theorem C7_category_roundtrip_idempotent :
    ∀ file : Option Json,
      normalizeFile (some (normalizeFile file)) = normalizeFile file := by
  intro file
  have hgood := load_good file
  unfold normalizeFile
  rw [load_saved hgood]
  unfold save_category_options
  have hitem : ∀ n ∈ (load_category_options file).1,
      savedItem ((load_category_options file).1.map
        (fun m => (m, colorOf (load_category_options file).2 m))) n
      = savedItem (load_category_options file).2 n := by
    intro n hn
    unfold savedItem
    have hco : colorOf ((load_category_options file).1.map
        (fun m => (m, colorOf (load_category_options file).2 m))) n
        = colorOf (load_category_options file).2 n := by
      unfold colorOf
      rw [alookup_map_self
        (fun m => (alookup m (load_category_options file).2).getD "")
        (load_category_options file).1 n hn]
      rfl
    rw [hco]
  rw [List.map_congr_left hitem]

/-- Instantiation of C7 at the default-population path and a custom file. -/
theorem C7_category_roundtrip_idempotent_witness :
    normalizeFile (some (normalizeFile none)) = normalizeFile none
    ∧ normalizeFile (some (normalizeFile
        (some (Json.obj [("categories", Json.arr [Json.str "Custom"])]))))
      = normalizeFile
          (some (Json.obj [("categories", Json.arr [Json.str "Custom"])])) :=
  ⟨C7_category_roundtrip_idempotent none,
    C7_category_roundtrip_idempotent
      (some (Json.obj [("categories", Json.arr [Json.str "Custom"])]))⟩

/-- Claim C8: every load yields a non-empty, case-insensitively unique
category list; a missing/unreadable file, a non-object value, or an empty
result after filtering falls back to the 8 built-in defaults with their
colors; and after any successful registry removal — including of the last
remaining category — the registry as loaded still has at least one
category. -/
theorem C8_registry_nonempty_unique :
    (∀ file, (load_category_options file).1 ≠ [])
    ∧ (∀ file, ((load_category_options file).1.map lowerKey).Nodup)
    ∧ load_category_options none = defaultPair
    ∧ (∀ j : Json, (∀ fs, j ≠ .obj fs) → load_category_options (some j) = defaultPair)
    ∧ (∀ items : List Json,
        (!items.isEmpty && items.all isStrJson) = true →
        (processLegacyGo (items.map stringOf) []).1 = [] →
        loadFromCategories (some (Json.arr items)) = defaultPair)
    ∧ (∀ items : List Json,
        (!items.isEmpty && items.all isStrJson) = false →
        (processObjectGo items []).1 = [] →
        loadFromCategories (some (Json.arr items)) = defaultPair)
    ∧ (∀ file name out, remove_category file name = .ok out →
        (load_category_options (some out.2)).1 ≠ []) := by
  refine ⟨fun file => (load_good file).nonempty,
    fun file => (load_good file).nodup, rfl, ?_, ?_, ?_, ?_⟩
  · intro j h
    match j with
    | .null => rfl
    | .bool b => rfl
    | .num q => rfl
    | .str s => rfl
    | .arr l => rfl
    | .obj fs => exact absurd rfl (h fs)
  · intro items hleg hempty
    simp only [loadFromCategories, hleg, if_true, if_pos hempty]
  · intro items hleg hempty
    simp only [loadFromCategories, hleg, Bool.false_eq_true, if_false,
      if_pos hempty]
  · intro file name out _
    exact (load_good (some out.2)).nonempty

/-- Instantiation of C8: a non-object file defaults; removing the last
category leaves an empty persisted list, and the next load restores the
defaults (so the registry never reads back empty). -/
theorem C8_registry_nonempty_unique_witness :
    (load_category_options (some (Json.str "oops"))).1 = DEFAULT_CATEGORIES
    ∧ remove_category
        (some (Json.obj [("categories", Json.arr [Json.str "Solo"])])) "Solo"
      = .ok ([], Json.obj [("categories", Json.arr [])])
    ∧ (load_category_options (some (Json.obj [("categories", Json.arr [])]))).1
      = DEFAULT_CATEGORIES
    ∧ (load_category_options (some (Json.obj [("categories", Json.arr [])]))).1
      ≠ [] := by
  refine ⟨by with_unfolding_all rfl, by with_unfolding_all rfl,
    by with_unfolding_all rfl, ?_⟩
  exact C8_registry_nonempty_unique.2.2.2.2.2.2
    (some (Json.obj [("categories", Json.arr [Json.str "Solo"])])) "Solo"
    ([], Json.obj [("categories", Json.arr [])])
    (by with_unfolding_all rfl)

/-! ### Claim C9 (budget store, modelled from the spec) -/

theorem decode_encode {α : Type} (f : α → Json) (g : Json → Option α)
    (h : ∀ a : α, g (f a) = some a) :
    ∀ l : List (String × α),
      (l.map (fun p => (p.1, f p.2))).mapM
          (fun p => (g p.2).map (fun v => (p.1, v)))
        = some l := by
  intro l
  induction l with
  | nil => rfl
  | cons p rest ih =>
    simp only [List.map_cons, List.mapM_cons, h p.2, Option.map_some', ih]
    rfl

theorem decodeCats_encode (l : List (String × ℚ)) :
    decodeCats (Json.obj (l.map (fun c => (c.1, Json.num c.2)))) = some l := by
  simp only [decodeCats]
  exact decode_encode (fun q => Json.num q) decodeAmount (fun q => rfl) l

theorem decodeMonths_encode (l : List (String × List (String × ℚ))) :
    decodeMonths (Json.obj (l.map (fun m =>
      (m.1, Json.obj (m.2.map (fun c => (c.1, Json.num c.2))))))) = some l := by
  simp only [decodeMonths]
  exact decode_encode
    (fun cats => Json.obj (cats.map (fun c => (c.1, Json.num c.2))))
    decodeCats decodeCats_encode l

theorem decodeBudgets_encode
    (data : List (String × List (String × List (String × ℚ)))) :
    decodeBudgets (save_budgets data) = some data := by
  simp only [save_budgets, decodeBudgets]
  exact decode_encode
    (fun months => Json.obj (months.map (fun m =>
      (m.1, Json.obj (m.2.map (fun c => (c.1, Json.num c.2)))))))
    decodeMonths decodeMonths_encode data

/-- Claim C9 (spec-modelled: `load_budgets`/`save_budgets` are called from
src/window.py but defined nowhere under src/): loading gives the nested
year → month → category → amount map; a missing or undecodable file gives
the empty map without error; saving writes the structure verbatim, so a
saved map loads back unchanged. -/
theorem C9_budget_store_roundtrip :
    load_budgets none = []
    ∧ (∀ j, decodeBudgets j = none → load_budgets (some j) = [])
    ∧ (∀ data, load_budgets (some (save_budgets data)) = data) := by
  refine ⟨rfl, ?_, ?_⟩
  · intro j h
    simp only [load_budgets, h]
    rfl
  · intro data
    simp only [load_budgets, decodeBudgets_encode]
    rfl

/-- Instantiation of C9 at a concrete budget map and a corrupt file. -/
theorem C9_budget_store_roundtrip_witness :
    load_budgets (some (save_budgets [("2024", [("01", [("Food", 15)])])]))
      = [("2024", [("01", [("Food", 15)])])]
    ∧ load_budgets (some (Json.str "corrupt")) = [] :=
  ⟨C9_budget_store_roundtrip.2.2 [("2024", [("01", [("Food", 15)])])],
    C9_budget_store_roundtrip.2.1 (Json.str "corrupt") rfl⟩

/-! ## Pivot table (`ExpensesWindow._update_pivot_totals`, src/window.py 747-1031)

An `Expense` mirrors the dataclass of src/window.py (six string fields).
`QDate.fromString(_, "dd/MM/yyyy")` is embedded as `parseDateDMY`: exactly
ten characters `dd/MM/yyyy` with digits in the digit slots, and the
(day, month, year) triple valid in the proleptic Gregorian calendar (no
year 0).  `QDate.currentDate()` becomes the explicit `curYear`/`curMonth`
parameters of `PivotInput`. -/

structure Expense where
  id : String
  name : String
  date : String
  price : String
  category : String
  description : String

def isLeap (y : ℕ) : Bool :=
  y % 4 = 0 && (y % 100 ≠ 0 || y % 400 = 0)

def daysInMonth (mo y : ℕ) : ℕ :=
  if mo = 2 then (if isLeap y then 29 else 28)
  else if mo = 4 ∨ mo = 6 ∨ mo = 9 ∨ mo = 11 then 30
  else 31

structure DMY where
  day : ℕ
  month : ℕ
  year : ℕ

def digitVal (c : Char) : ℕ := c.toNat - 48

/-- `QtCore.QDate.fromString(s, "dd/MM/yyyy")` as an option: `none` is an
invalid `QDate`. -/
def parseDateDMY (s : String) : Option DMY :=
  match s.data with
  | [d1, d2, s1, m1, m2, s2, y1, y2, y3, y4] =>
    if d1.isDigit && d2.isDigit && s1 == '/' && m1.isDigit && m2.isDigit
        && s2 == '/' && y1.isDigit && y2.isDigit && y3.isDigit && y4.isDigit then
      if 1 ≤ 1000 * digitVal y1 + 100 * digitVal y2 + 10 * digitVal y3 + digitVal y4
          ∧ 1 ≤ 10 * digitVal m1 + digitVal m2 ∧ 10 * digitVal m1 + digitVal m2 ≤ 12
          ∧ 1 ≤ 10 * digitVal d1 + digitVal d2
          ∧ 10 * digitVal d1 + digitVal d2
            ≤ daysInMonth (10 * digitVal m1 + digitVal m2)
                (1000 * digitVal y1 + 100 * digitVal y2 + 10 * digitVal y3 + digitVal y4)
      then some ⟨10 * digitVal d1 + digitVal d2, 10 * digitVal m1 + digitVal m2,
        1000 * digitVal y1 + 100 * digitVal y2 + 10 * digitVal y3 + digitVal y4⟩
      else none
    else none
  | _ => none

/-- window.py 797-799: strip the category, blank becomes the placeholder. -/
def effCategory (e : Expense) : String :=
  if pyStrip e.category = "" then "(Sans catégorie)" else pyStrip e.category

/-- window.py 790-792, 795-801: the price/月-bounds/category part of one
expense's contribution to `cumuls` (runs after the date and year guards). -/
def addExpPrice (e : Expense) (mo : ℕ) (acc : ℕ → String → ℚ) : ℕ → String → ℚ :=
  match parse_price_to_float e.price with
  | .error _ => acc
  | .ok v =>
    if mo - 1 < 12 then
      fun m c => if m = mo - 1 ∧ c = effCategory e then acc m c + v else acc m c
    else acc

/-- window.py 784-801: one iteration of the `cumuls` loop (skip on invalid
date, on a selected year that differs, and on an unparsable price). -/
def addExp (year : Option ℕ) (e : Expense) (acc : ℕ → String → ℚ) :
    ℕ → String → ℚ :=
  match parseDateDMY e.date with
  | none => acc
  | some dmy =>
    match year with
    | none => addExpPrice e dmy.month acc
    | some yr => if dmy.year = yr then addExpPrice e dmy.month acc else acc

/-- window.py 783-801: `cumuls[m][cat]`, read as a total function with
absent keys read as `0.0`. -/
def cumuls (year : Option ℕ) (expenses : List Expense) : ℕ → String → ℚ :=
  expenses.foldl (fun acc e => addExp year e acc) (fun _ _ => 0)

/-- The closed form of one expense's contribution to `cumuls year es m c`. -/
def priceContribution (e : Expense) (mo m : ℕ) (c : String) : ℚ :=
  match parse_price_to_float e.price with
  | .error _ => 0
  | .ok v => if mo - 1 < 12 then (if m = mo - 1 ∧ c = effCategory e then v else 0) else 0

def expContribution (year : Option ℕ) (e : Expense) (m : ℕ) (c : String) : ℚ :=
  match parseDateDMY e.date with
  | none => 0
  | some dmy =>
    match year with
    | none => priceContribution e dmy.month m c
    | some yr => if dmy.year = yr then priceContribution e dmy.month m c else 0

/-- window.py 771-774: `budgets_for_year` — `{}` with no selected year,
else `self._budgets.get(str(year), {})`. -/
def budgetsForYear
    (budgets : List (String × List (String × List (String × ℚ))))
    (year : Option ℕ) : List (String × List (String × ℚ)) :=
  match year with
  | none => []
  | some y => (alookup (Nat.repr y) budgets).getD []

/-- `f"{m + 1:02d}"` for a 0-based month index. -/
def monthKey (m : ℕ) : String :=
  if m + 1 < 10 then "0" ++ Nat.repr (m + 1) else Nat.repr (m + 1)

/-- window.py 825-832: the month cell's budget — present (`budget_set`)
exactly when a year is selected and `budgets_for_year[month_key]` has the
category as a key. -/
def cellBudget (year : Option ℕ) (bfy : List (String × List (String × ℚ)))
    (m : ℕ) (c : String) : Option ℚ :=
  match year with
  | none => none
  | some _ =>
    match alookup (monthKey m) bfy with
    | none => none
    | some mb => alookup c mb

/-- window.py 818-850: the displayed month cell — `remaining = budget − spent`
when a budget entry exists (the text set at 821 is overwritten at 840),
else the raw spent value. -/
def cellValue (year : Option ℕ) (bfy : List (String × List (String × ℚ)))
    (spent : ℕ → String → ℚ) (m : ℕ) (c : String) : ℚ :=
  match cellBudget year bfy m c with
  | some b => b - spent m c
  | none => spent m c

/-- The four per-month accumulators of window.py 811-844. -/
structure MonthAcc where
  rowTotal : ℚ
  budgetTotal : ℚ
  onBudgetTotal : ℚ
  hasBudget : Bool

/-- window.py 815-844: the loop over the category columns of one month
row (`row_total` always grows by the cell's spending; the budget
accumulators and `month_has_any_budget` only when `budget_set`). -/
def monthFold (year : Option ℕ) (bfy : List (String × List (String × ℚ)))
    (spent : ℕ → String → ℚ) (m : ℕ) :
    List String → MonthAcc → MonthAcc
  | [], acc => acc
  | c :: rest, acc =>
    match cellBudget year bfy m c with
    | some b => monthFold year bfy spent m rest
        ⟨acc.rowTotal + spent m c, acc.budgetTotal + b,
          acc.onBudgetTotal + spent m c, true⟩
    | none => monthFold year bfy spent m rest
        ⟨acc.rowTotal + spent m c, acc.budgetTotal,
          acc.onBudgetTotal, acc.hasBudget⟩

/-- The state feeding one `_update_pivot_totals` run: the selected year
(`none` = "Tous"), the decoded budget side-file, the expense cache, the
computed category columns (sorted and duplicate-free in the source, where
they come from a `set`), and `QDate.currentDate()`. -/
structure PivotInput where
  year : Option ℕ
  budgets : List (String × List (String × List (String × ℚ)))
  expenses : List Expense
  cats : List String
  curYear : ℕ
  curMonth : ℕ

def pivotBfy (p : PivotInput) : List (String × List (String × ℚ)) :=
  budgetsForYear p.budgets p.year

def pivotSpent (p : PivotInput) : ℕ → String → ℚ :=
  cumuls p.year p.expenses

def pivotCell (p : PivotInput) (m : ℕ) (c : String) : ℚ :=
  cellValue p.year (pivotBfy p) (pivotSpent p) m c

def pivotMonthAcc (p : PivotInput) (m : ℕ) : MonthAcc :=
  monthFold p.year (pivotBfy p) (pivotSpent p) m p.cats ⟨0, 0, 0, false⟩

/-- window.py 859-884: the month row's Total column. -/
def pivotMonthTotal (p : PivotInput) (m : ℕ) : ℚ :=
  if (pivotMonthAcc p m).hasBudget
  then (pivotMonthAcc p m).budgetTotal - (pivotMonthAcc p m).onBudgetTotal
  else (pivotMonthAcc p m).rowTotal

/-- window.py 886-887: `monthly_totals` (and `annual_total` is its sum). -/
def pivotMonthlyTotals (p : PivotInput) : List ℚ :=
  (List.range 12).map (fun m => (pivotMonthAcc p m).rowTotal)

/-- window.py 893-897: `months_elapsed` — the current month for the real
current year, 12 otherwise, clamped below to 1. -/
def monthsElapsed (year : Option ℕ) (curYear curMonth : ℕ) : ℕ :=
  if (if year = some curYear then curMonth else 12) < 1 then 1
  else (if year = some curYear then curMonth else 12)

def pivotEl (p : PivotInput) : ℕ :=
  monthsElapsed p.year p.curYear p.curMonth

/-- window.py 900: `total_to_date = sum(monthly_totals[:months_elapsed])`. -/
def pivotTotalToDate (p : PivotInput) : ℚ :=
  ((pivotMonthlyTotals p).take (pivotEl p)).sum

/-- window.py 902: `projection_year_end = annual_total`. -/
def pivotAnnualTotal (p : PivotInput) : ℚ :=
  (pivotMonthlyTotals p).sum

/-- window.py 931: `use_budgets_for_totals`. -/
def useBudgets (year : Option ℕ) (bfy : List (String × List (String × ℚ))) : Bool :=
  year.isSome && !bfy.isEmpty

def pivotUse (p : PivotInput) : Bool :=
  useBudgets p.year (pivotBfy p)

/-- window.py 934, 942-943: the budget consulted by the summary loop for
month `m` and category `c` (`{}` when budgets are not in use). -/
def summaryBudgetAt (use : Bool) (bfy : List (String × List (String × ℚ)))
    (m : ℕ) (c : String) : Option ℚ :=
  if use then alookup c ((alookup (monthKey m) bfy).getD []) else none

/-- window.py 937: `annual_by_cat`. -/
def annualByCat (spent : ℕ → String → ℚ) (c : String) : ℚ :=
  ((List.range 12).map (fun m => spent m c)).sum

/-- window.py 938-939: `to_date_by_cat` (months `m < months_elapsed`). -/
def toDateByCat (spent : ℕ → String → ℚ) (el : ℕ) (c : String) : ℚ :=
  (((List.range 12).filter (fun m => m < el)).map (fun m => spent m c)).sum

/-- window.py 942-945: `annual_budget_by_cat` (a present key adds its
value, an absent one nothing). -/
def annualBudgetByCat (use : Bool) (bfy : List (String × List (String × ℚ)))
    (c : String) : ℚ :=
  ((List.range 12).map (fun m => (summaryBudgetAt use bfy m c).getD 0)).sum

/-- window.py 942-947: `to_date_budget_by_cat`. -/
def toDateBudgetByCat (use : Bool) (bfy : List (String × List (String × ℚ)))
    (el : ℕ) (c : String) : ℚ :=
  (((List.range 12).filter (fun m => m < el)).map
    (fun m => (summaryBudgetAt use bfy m c).getD 0)).sum

/-- window.py 969-972: the branch condition of a summary category cell —
budgets in use and (a non-zero annual budget for the category, or a
January entry in `budgets_for_year`). -/
def summaryCatUseBudget (use : Bool) (bfy : List (String × List (String × ℚ)))
    (c : String) : Bool :=
  use && (decide (annualBudgetByCat use bfy c ≠ 0) || (alookup "01" bfy).isSome)

/-- window.py 969-991: the Year-to-date summary cell of category `c`. -/
def summaryCatToDate (p : PivotInput) (c : String) : ℚ :=
  if summaryCatUseBudget (pivotUse p) (pivotBfy p) c
  then toDateBudgetByCat (pivotUse p) (pivotBfy p) (pivotEl p) c
    - toDateByCat (pivotSpent p) (pivotEl p) c
  else toDateByCat (pivotSpent p) (pivotEl p) c

/-- window.py 969-991: the Year-end projection summary cell of `c`
(`proj_by_cat` is a copy of `annual_by_cat`). -/
def summaryCatProj (p : PivotInput) (c : String) : ℚ :=
  if summaryCatUseBudget (pivotUse p) (pivotBfy p) c
  then annualBudgetByCat (pivotUse p) (pivotBfy p) c
    - annualByCat (pivotSpent p) c
  else annualByCat (pivotSpent p) c

/-- window.py 1012-1013: `to_date_budget_total` / `year_budget_total`. -/
def toDateBudgetTotal (use : Bool) (bfy : List (String × List (String × ℚ)))
    (el : ℕ) (cats : List String) : ℚ :=
  (cats.map (toDateBudgetByCat use bfy el)).sum

def annualBudgetTotal (use : Bool) (bfy : List (String × List (String × ℚ)))
    (cats : List String) : ℚ :=
  (cats.map (annualBudgetByCat use bfy)).sum

/-- window.py 1010-1031: the Year-to-date Total cell — with budgets in
use, `to_date_budget_total - total_to_date` (the subtrahend is the sum of
ALL monthly totals in the window, not only budgeted spending), else
`total_to_date`. -/
def summaryTotalToDate (p : PivotInput) : ℚ :=
  if pivotUse p
  then toDateBudgetTotal (pivotUse p) (pivotBfy p) (pivotEl p) p.cats
    - pivotTotalToDate p
  else pivotTotalToDate p

/-- window.py 1010-1031: the Year-end projection Total cell. -/
def summaryTotalProj (p : PivotInput) : ℚ :=
  if pivotUse p
  then annualBudgetTotal (pivotUse p) (pivotBfy p) p.cats - pivotAnnualTotal p
  else pivotAnnualTotal p

/-- The months of the Year-to-date window. -/
def windowMonths (p : PivotInput) : List ℕ :=
  (List.range 12).filter (fun m => m < pivotEl p)

/-- The claim's reading of the Year-to-date Total cell (stated from the
claim's words, for comparison with `summaryTotalToDate`): the month rows'
budgeted/unbudgeted logic aggregated across the window — when any window
month has a budget entry, (sum of budgeted amounts) − (sum of spending on
budgeted categories ONLY), else the straight spending sum. -/
def claimSummaryTotalToDate (p : PivotInput) : ℚ :=
  if (windowMonths p).any (fun m => (pivotMonthAcc p m).hasBudget)
  then ((windowMonths p).map (fun m => (pivotMonthAcc p m).budgetTotal)).sum
    - ((windowMonths p).map (fun m => (pivotMonthAcc p m).onBudgetTotal)).sum
  else ((windowMonths p).map (fun m => (pivotMonthAcc p m).rowTotal)).sum

/-- The claim's reading of a Year-to-date summary category cell (stated
from the claim's words): the month cells' per-(month, category) logic
aggregated across the window — budget − spent where a budget entry
exists, raw spending where none does. -/
def claimSummaryCatToDate (p : PivotInput) (c : String) : ℚ :=
  ((windowMonths p).map
    (fun m => cellValue p.year (pivotBfy p) (pivotSpent p) m c)).sum

/-! ### Pivot lemmas (claims C3, C4) -/

theorem addExpPrice_apply (e : Expense) (mo : ℕ) (acc : ℕ → String → ℚ)
    (m : ℕ) (c : String) :
    addExpPrice e mo acc m c = acc m c + priceContribution e mo m c := by
  cases hp : parse_price_to_float e.price with
  | error err => simp only [addExpPrice, priceContribution, hp, add_zero]
  | ok v =>
    simp only [addExpPrice, priceContribution, hp]
    by_cases h12 : mo - 1 < 12
    · rw [if_pos h12, if_pos h12]
      by_cases hmc : m = mo - 1 ∧ c = effCategory e
      · rw [if_pos hmc, if_pos hmc]
      · rw [if_neg hmc, if_neg hmc, add_zero]
    · rw [if_neg h12, if_neg h12, add_zero]

theorem addExp_apply (year : Option ℕ) (e : Expense) (acc : ℕ → String → ℚ)
    (m : ℕ) (c : String) :
    addExp year e acc m c = acc m c + expContribution year e m c := by
  cases hd : parseDateDMY e.date with
  | none => simp only [addExp, expContribution, hd, add_zero]
  | some dmy =>
    cases year with
    | none => simp only [addExp, expContribution, hd, addExpPrice_apply]
    | some yr =>
      simp only [addExp, expContribution, hd]
      by_cases hy : dmy.year = yr
      · rw [if_pos hy, if_pos hy, addExpPrice_apply]
      · rw [if_neg hy, if_neg hy, add_zero]

theorem cumuls_go (year : Option ℕ) (m : ℕ) (c : String) :
    ∀ (es : List Expense) (acc : ℕ → String → ℚ),
      es.foldl (fun a e => addExp year e a) acc m c
        = acc m c + (es.map (fun e => expContribution year e m c)).sum := by
  intro es
  induction es with
  | nil => intro acc; simp
  | cons e rest ih =>
    intro acc
    rw [List.foldl_cons, ih, List.map_cons, List.sum_cons, addExp_apply, add_assoc]

theorem cumuls_apply (year : Option ℕ) (es : List Expense) (m : ℕ) (c : String) :
    cumuls year es m c = (es.map (fun e => expContribution year e m c)).sum := by
  rw [cumuls, cumuls_go, zero_add]

theorem monthFold_spec (year : Option ℕ) (bfy : List (String × List (String × ℚ)))
    (spent : ℕ → String → ℚ) (m : ℕ) :
    ∀ (cats : List String) (acc : MonthAcc),
      monthFold year bfy spent m cats acc
        = ⟨acc.rowTotal + (cats.map (spent m)).sum,
           acc.budgetTotal + (cats.filterMap (fun c => cellBudget year bfy m c)).sum,
           acc.onBudgetTotal
             + ((cats.filter (fun c => (cellBudget year bfy m c).isSome)).map
                 (spent m)).sum,
           acc.hasBudget || cats.any (fun c => (cellBudget year bfy m c).isSome)⟩ := by
  intro cats
  induction cats with
  | nil => intro acc; simp [monthFold]
  | cons c rest ih =>
    intro acc
    cases hcb : cellBudget year bfy m c with
    | some b =>
      simp only [monthFold, hcb, ih, MonthAcc.mk.injEq, List.map_cons,
        List.sum_cons, List.filterMap_cons, List.filter_cons, List.any_cons,
        Option.isSome_some, if_true, Bool.true_or, Bool.or_true]
      refine ⟨by ring, by ring, by ring, by simp⟩
    | none =>
      simp only [monthFold, hcb, ih, MonthAcc.mk.injEq, List.map_cons,
        List.sum_cons, List.filterMap_cons, List.filter_cons, List.any_cons,
        Option.isSome_none, if_false, Bool.false_or]
      refine ⟨by ring, by simp, by simp, by simp⟩

theorem pivotRowTotal_spec (p : PivotInput) (m : ℕ) :
    (pivotMonthAcc p m).rowTotal = (p.cats.map (fun c => pivotSpent p m c)).sum := by
  rw [pivotMonthAcc, monthFold_spec]
  exact zero_add _

theorem range_filter_lt (k : ℕ) : ∀ n : ℕ,
    (List.range n).filter (fun m => m < k) = List.range (min k n) := by
  intro n
  induction n with
  | zero => simp
  | succ n ih =>
    rw [List.range_succ, List.filter_append, ih]
    by_cases h : n < k
    · rw [show min k n = n by omega, show min k (n + 1) = n + 1 by omega,
        List.range_succ]
      simp [h]
    · rw [show min k n = k by omega, show min k (n + 1) = k by omega]
      simp [h]

theorem pivotTotalToDate_spec (p : PivotInput) :
    pivotTotalToDate p
      = ((List.range (min (pivotEl p) 12)).map
          (fun m => (p.cats.map (fun c => pivotSpent p m c)).sum)).sum := by
  rw [pivotTotalToDate, pivotMonthlyTotals, ← List.map_take, List.take_range]
  exact congrArg List.sum (List.map_congr_left (fun m _ => pivotRowTotal_spec p m))

theorem pivotAnnualTotal_spec (p : PivotInput) :
    pivotAnnualTotal p
      = ((List.range 12).map
          (fun m => (p.cats.map (fun c => pivotSpent p m c)).sum)).sum := by
  rw [pivotAnnualTotal, pivotMonthlyTotals]
  exact congrArg List.sum (List.map_congr_left (fun m _ => pivotRowTotal_spec p m))

/-- Claim C3: for the selected year, a month cell shows remaining =
budget − spent when a budget entry (even an explicit zero) exists for
(year, month, category) and the raw spent sum otherwise, where the spent
sum is the sum of the parsed prices of that month's expenses in the
category; the month's Total is (sum of that month's budgeted amounts) −
(spending on budgeted categories only) when any category is budgeted that
month, else the straight sum of all categories' spending. -/
theorem C3_pivot_month_cells_and_totals :
    (∀ (year : Option ℕ) (es : List Expense) (m : ℕ) (c : String),
      cumuls year es m c = (es.map (fun e => expContribution year e m c)).sum)
    ∧ (∀ (year : Option ℕ) (e : Expense) (m : ℕ) (c : String) (dmy : DMY) (v : ℚ),
        parseDateDMY e.date = some dmy →
        (year = none ∨ year = some dmy.year) →
        parse_price_to_float e.price = .ok v →
        dmy.month = m + 1 → m < 12 → effCategory e = c →
        expContribution year e m c = v)
    ∧ (∀ (p : PivotInput) (m : ℕ) (c : String) (b : ℚ),
        cellBudget p.year (pivotBfy p) m c = some b →
        pivotCell p m c = b - pivotSpent p m c)
    ∧ (∀ (p : PivotInput) (m : ℕ) (c : String),
        cellBudget p.year (pivotBfy p) m c = none →
        pivotCell p m c = pivotSpent p m c)
    ∧ (∀ (p : PivotInput) (m : ℕ),
        (p.cats.any (fun c => (cellBudget p.year (pivotBfy p) m c).isSome)) = true →
        pivotMonthTotal p m
          = (p.cats.filterMap (fun c => cellBudget p.year (pivotBfy p) m c)).sum
            - ((p.cats.filter (fun c => (cellBudget p.year (pivotBfy p) m c).isSome)).map
                (fun c => pivotSpent p m c)).sum)
    ∧ (∀ (p : PivotInput) (m : ℕ),
        (p.cats.any (fun c => (cellBudget p.year (pivotBfy p) m c).isSome)) = false →
        pivotMonthTotal p m = (p.cats.map (fun c => pivotSpent p m c)).sum) := by
  refine ⟨cumuls_apply, ?_, ?_, ?_, ?_, ?_⟩
  · intro year e m c dmy v hd hy hp hm h12 hc
    simp only [expContribution, hd]
    have hpc : priceContribution e dmy.month m c = v := by
      simp only [priceContribution, hp]
      rw [if_pos (show dmy.month - 1 < 12 by omega),
        if_pos ⟨show m = dmy.month - 1 by omega, hc.symm⟩]
    cases hy with
    | inl h =>
      rw [h]
      exact hpc
    | inr h =>
      rw [h]
      show (if dmy.year = dmy.year then priceContribution e dmy.month m c else 0) = v
      rw [if_pos rfl]
      exact hpc
  · intro p m c b h
    rw [pivotCell, cellValue, h]
  · intro p m c h
    rw [pivotCell, cellValue, h]
  · intro p m h
    rw [pivotMonthTotal, pivotMonthAcc, monthFold_spec]
    simp only [h, Bool.false_or, if_true, zero_add]
  · intro p m h
    rw [pivotMonthTotal, pivotMonthAcc, monthFold_spec]
    simp only [h, Bool.or_false, Bool.false_eq_true, if_false, zero_add]

def e1 : Expense := ⟨"id1", "a", "05/01/2024", "10", "Food", ""⟩

def e2 : Expense := ⟨"id2", "b", "06/01/2024", "7", "Misc", ""⟩

/-- Year 2024 selected in 2025, one January budget entry with an explicit
zero for Food. -/
def pivotZero : PivotInput :=
  ⟨some 2024, [("2024", [("01", [("Food", 0)])])], [e1, e2],
    ["Food", "Misc"], 2025, 3⟩

/-- Instantiation of C3: an explicit zero budget shows remaining 0 − 10,
the unbudgeted Misc cell shows its raw spending, January's Total uses the
budgeted branch and February's the straight sum. -/
theorem C3_pivot_month_cells_and_totals_witness :
    expContribution (some 2024) e1 0 "Food" = 10
    ∧ pivotCell pivotZero 0 "Food" = 0 - 10
    ∧ pivotCell pivotZero 0 "Misc" = 7
    ∧ pivotMonthTotal pivotZero 0 = 0 - 10
    ∧ pivotMonthTotal pivotZero 1 = 0 := by
  refine ⟨?_, ?_, ?_, ?_, ?_⟩
  · exact C3_pivot_month_cells_and_totals.2.1 (some 2024) e1 0 "Food"
      ⟨5, 1, 2024⟩ 10 (by with_unfolding_all rfl) (Or.inr rfl)
      (by with_unfolding_all rfl) rfl (by decide) (by with_unfolding_all rfl)
  · rw [C3_pivot_month_cells_and_totals.2.2.1 pivotZero 0 "Food" 0
      (by with_unfolding_all rfl)]
    with_unfolding_all decide
  · rw [C3_pivot_month_cells_and_totals.2.2.2.1 pivotZero 0 "Misc"
      (by with_unfolding_all rfl)]
    with_unfolding_all decide
  · rw [C3_pivot_month_cells_and_totals.2.2.2.2.1 pivotZero 0
      (by with_unfolding_all rfl)]
    with_unfolding_all decide
  · rw [C3_pivot_month_cells_and_totals.2.2.2.2.2 pivotZero 1
      (by with_unfolding_all rfl)]
    with_unfolding_all decide

/-- Claim C4 (amended): Year-to-date sums months `1..current_month` for
the real current year and all 12 months otherwise; Year-end projection
always sums all 12; per-category summary cells branch not on per-cell
budget presence but on `use_budgets ∧ (annual budget ≠ 0 ∨ a January
budget entry exists)`; and with budgets in use, each summary Total
subtracts the spending of ALL categories (the full window total), not
only the budgeted ones, from the budget sum. -/
theorem C4_pivot_summary_rows :
    (∀ p : PivotInput, p.year = some p.curYear → 1 ≤ p.curMonth →
      pivotEl p = p.curMonth)
    ∧ (∀ p : PivotInput, p.year ≠ some p.curYear → pivotEl p = 12)
    ∧ (∀ p : PivotInput,
        pivotTotalToDate p
          = ((List.range (min (pivotEl p) 12)).map
              (fun m => (p.cats.map (fun c => pivotSpent p m c)).sum)).sum)
    ∧ (∀ p : PivotInput,
        pivotAnnualTotal p
          = ((List.range 12).map
              (fun m => (p.cats.map (fun c => pivotSpent p m c)).sum)).sum)
    ∧ (∀ (p : PivotInput) (c : String),
        summaryCatUseBudget (pivotUse p) (pivotBfy p) c = true →
        summaryCatToDate p c
          = toDateBudgetByCat (pivotUse p) (pivotBfy p) (pivotEl p) c
            - toDateByCat (pivotSpent p) (pivotEl p) c
        ∧ summaryCatProj p c
          = annualBudgetByCat (pivotUse p) (pivotBfy p) c
            - annualByCat (pivotSpent p) c)
    ∧ (∀ (p : PivotInput) (c : String),
        summaryCatUseBudget (pivotUse p) (pivotBfy p) c = false →
        summaryCatToDate p c = toDateByCat (pivotSpent p) (pivotEl p) c
        ∧ summaryCatProj p c = annualByCat (pivotSpent p) c)
    ∧ (∀ p : PivotInput, pivotUse p = true →
        summaryTotalToDate p
          = toDateBudgetTotal (pivotUse p) (pivotBfy p) (pivotEl p) p.cats
            - ((List.range (min (pivotEl p) 12)).map
                (fun m => (p.cats.map (fun c => pivotSpent p m c)).sum)).sum
        ∧ summaryTotalProj p
          = annualBudgetTotal (pivotUse p) (pivotBfy p) p.cats
            - ((List.range 12).map
                (fun m => (p.cats.map (fun c => pivotSpent p m c)).sum)).sum)
    ∧ (∀ p : PivotInput, pivotUse p = false →
        summaryTotalToDate p = pivotTotalToDate p
        ∧ summaryTotalProj p = pivotAnnualTotal p) := by
  refine ⟨?_, ?_, pivotTotalToDate_spec, pivotAnnualTotal_spec,
    ?_, ?_, ?_, ?_⟩
  · intro p h h1
    rw [pivotEl, monthsElapsed, if_pos h, if_neg (show ¬ p.curMonth < 1 by omega)]
  · intro p h
    rw [pivotEl, monthsElapsed, if_neg h, if_neg (by omega)]
  · intro p c h
    exact ⟨by rw [summaryCatToDate, if_pos h], by rw [summaryCatProj, if_pos h]⟩
  · intro p c h
    have h' : ¬ summaryCatUseBudget (pivotUse p) (pivotBfy p) c = true := by
      rw [h]; exact Bool.false_ne_true
    exact ⟨by rw [summaryCatToDate, if_neg h'], by rw [summaryCatProj, if_neg h']⟩
  · intro p h
    constructor
    · rw [summaryTotalToDate, if_pos h, pivotTotalToDate_spec]
    · rw [summaryTotalProj, if_pos h, pivotAnnualTotal_spec]
  · intro p h
    have h' : ¬ pivotUse p = true := by rw [h]; exact Bool.false_ne_true
    exact ⟨by rw [summaryTotalToDate, if_neg h'],
      by rw [summaryTotalProj, if_neg h']⟩

/-- Year 2024 selected in 2025 with a single January budget (Food: 15)
and two January expenses: Food 10 and Misc 7. -/
def pivotDemo : PivotInput :=
  ⟨some 2024, [("2024", [("01", [("Food", 15)])])], [e1, e2],
    ["Food", "Misc"], 2025, 3⟩

/-- Claim C4 counterexample: on `pivotDemo` the code's Year-to-date Total
is 15 − (10 + 7) = −2 — it subtracts the spending of every category from
the budget sum — while the claim's “spending on budgeted categories only”
reading gives 15 − 10 = 5; and the never-budgeted category Misc is shown
as a remaining 0 − 7 = −7 instead of its spending 7, because the summary
branch keys on a January budget entry existing at all. -/
theorem C4_summary_counterexample :
    summaryTotalToDate pivotDemo = -2
    ∧ claimSummaryTotalToDate pivotDemo = 5
    ∧ summaryTotalToDate pivotDemo ≠ claimSummaryTotalToDate pivotDemo
    ∧ summaryCatToDate pivotDemo "Misc" = -7
    ∧ claimSummaryCatToDate pivotDemo "Misc" = 7
    ∧ summaryCatToDate pivotDemo "Misc" ≠ claimSummaryCatToDate pivotDemo "Misc" := by
  set_option maxRecDepth 100000 in
  refine ⟨by with_unfolding_all decide, by with_unfolding_all decide,
    by with_unfolding_all decide, by with_unfolding_all decide,
    by with_unfolding_all decide, by with_unfolding_all decide⟩

/-- Instantiation of C4: both Year-to-date windows (12 months for a past
year, the current month for the real current year), and the budgeted
Total on `pivotDemo`. -/
theorem C4_pivot_summary_rows_witness :
    pivotEl pivotDemo = 12
    ∧ pivotEl (PivotInput.mk (some 2025) [] [] [] 2025 3) = 3
    ∧ summaryTotalToDate pivotDemo = -2 := by
  refine ⟨?_, ?_, ?_⟩
  · exact C4_pivot_summary_rows.2.1 pivotDemo (by with_unfolding_all decide)
  · exact C4_pivot_summary_rows.1 (PivotInput.mk (some 2025) [] [] [] 2025 3)
      rfl (by decide)
  · rw [(C4_pivot_summary_rows.2.2.2.2.2.2.1 pivotDemo
      (by with_unfolding_all rfl)).1]
    with_unfolding_all decide

end AccountManager
